import Mathlib

/-!
# Verification of the GitHub repository lister

A shallow embedding of `src/main.py`.  The core is
`make_github_api_request`, the paginated HTTP fetch loop, modelled as a
fuel-indexed recursion over an abstract page source
(`ReqParams → ReqOutcome α`); one source invocation corresponds to one
HTTP request, so the list of issued `ReqParams` records the HTTP calls
made.  The formatter `format_repository_output` is modelled over a JSON
value type, together with models of `json.dumps(·, indent=2)` and
`json.loads` for the round-trip property.
-/

namespace GitHubLister

/-- Query parameters of one HTTP request: `params = {"page": page, "per_page": per_page}`
(main.py line 85). -/
structure ReqParams where
  page : Nat
  perPage : Nat
deriving DecidableEq, Repr

/-- The parts of an HTTP response the fetch loop inspects: the status code,
the `X-RateLimit-Remaining` header (absent = `None`), and the JSON body,
already decoded as a list of records (`response.json()`, main.py line 103). -/
structure HttpResponse (α : Type) where
  status : Nat
  rateLimitRemaining : Option String
  body : List α
deriving DecidableEq, Repr

/-- Outcome of one `requests.get` call: either a response arrives, or a
transport-level failure (`requests.exceptions.RequestException`) occurs. -/
inductive ReqOutcome (α : Type) where
  | success (r : HttpResponse α)
  | netError
deriving DecidableEq, Repr

/-- The error taxonomy of main.py: `RateLimitExceededError` (lines 23-26) and
`GitHubAPIError` (lines 17-20).  An `apiError (some s)` is an HTTP failure with
status `s` (raised at line 99 or via `raise_for_status` at line 101, re-raised
at line 137); `apiError none` is a transport failure with no status
(line 137). -/
inductive FetchError where
  | rateLimitExceeded
  | apiError (status : Option Nat)
deriving DecidableEq, Repr

/-- `max_pages is not None and page > max_pages` (main.py line 75). -/
def pageLimitHit (max_pages : Option Nat) (page : Nat) : Bool :=
  match max_pages with
  | some k => decide (k < page)
  | none => false

/-- `max_repos is not None and len(all_repositories) >= max_repos`
(main.py lines 80 and 128). -/
def repoLimitHit (max_repos : Option Nat) (count : Nat) : Bool :=
  match max_repos with
  | some m => decide (m ≤ count)
  | none => false

/-- Classification of a received response, main.py lines 91-103: a 403 whose
`X-RateLimit-Remaining` header is exactly `"0"` raises
`RateLimitExceededError` (line 95); any other 403 raises `GitHubAPIError`
with the status (line 99); `response.raise_for_status()` (line 101) raises
for any status in `[400, 600)`, which line 137 converts to `GitHubAPIError`;
otherwise the decoded body is used. -/
def classifyResponse {α : Type} (r : HttpResponse α) : Except FetchError (List α) :=
  if r.status = 403 then
    if r.rateLimitRemaining = some "0" then
      .error .rateLimitExceeded
    else
      .error (.apiError (some r.status))
  else if 400 ≤ r.status ∧ r.status < 600 then
    .error (.apiError (some r.status))
  else
    .ok r.body

/-- `remaining_slots` computation, main.py lines 110-114. -/
def remainingSlots {α : Type} (max_repos : Option Nat) (accLen : Nat) (body : List α) : Nat :=
  match max_repos with
  | some m => m - accLen
  | none => body.length

/-- The `while True` pagination loop of `make_github_api_request`
(main.py lines 73-131), one constructor case per iteration, indexed by fuel
(the Python loop has no a-priori bound; `none` in the first component means
the fuel ran out before the loop finished).  The second component is the
list of HTTP requests issued, in order.  The body follows the source line
by line: page-limit check (75), repo-limit check (80), the request (89),
error classification (91-101), empty-page stop (106-107), truncation to
`remaining_slots` and accumulation (110-117), short-page stop (123-125),
repo-limit stop (127-129), page increment (131). -/
def fetchGo {α : Type} (source : ReqParams → ReqOutcome α) (per_page : Nat)
    (max_pages max_repos : Option Nat) :
    Nat → Nat → List α → Option (Except FetchError (List α)) × List ReqParams
  | 0, _, _ => (none, [])
  | fuel + 1, page, acc =>
    if pageLimitHit max_pages page then
      (some (.ok acc), [])
    else if repoLimitHit max_repos acc.length then
      (some (.ok acc), [])
    else
      match source ⟨page, per_page⟩ with
      | .netError => (some (.error (.apiError none)), [⟨page, per_page⟩])
      | .success r =>
        match classifyResponse r with
        | .error e => (some (.error e), [⟨page, per_page⟩])
        | .ok body =>
          if body.isEmpty then
            (some (.ok acc), [⟨page, per_page⟩])
          else if body.length < per_page then
            (some (.ok (acc ++ body.take (remainingSlots max_repos acc.length body))),
              [⟨page, per_page⟩])
          else if repoLimitHit max_repos
              (acc ++ body.take (remainingSlots max_repos acc.length body)).length then
            (some (.ok (acc ++ body.take (remainingSlots max_repos acc.length body))),
              [⟨page, per_page⟩])
          else
            ((fetchGo source per_page max_pages max_repos fuel (page + 1)
                (acc ++ body.take (remainingSlots max_repos acc.length body))).1,
              ⟨page, per_page⟩ ::
                (fetchGo source per_page max_pages max_repos fuel (page + 1)
                  (acc ++ body.take (remainingSlots max_repos acc.length body))).2)

/-- `make_github_api_request` (main.py lines 34-137), abstracted over the HTTP
layer: `per_page = min(repos_per_page, 100)` (line 70), then the loop starts
at page 1 with an empty accumulator (lines 68-69). -/
def make_github_api_request {α : Type} (source : ReqParams → ReqOutcome α)
    (repos_per_page : Nat) (max_pages max_repos : Option Nat) (fuel : Nat) :
    Option (Except FetchError (List α)) × List ReqParams :=
  fetchGo source (min repos_per_page 100) max_pages max_repos fuel 1 []

/-- A well-behaved page source backed by a fixed list of pages: request for
page `p` (1-indexed) succeeds with status 200 and body `P[p-1]`, and with an
empty body past the end of `P`. -/
def pagesSource {α : Type} (P : List (List α)) : ReqParams → ReqOutcome α :=
  fun req => .success ⟨200, none, P.getD (req.page - 1) []⟩

/-- Every request issued by the loop carries the fixed `per_page` value
computed before the loop. -/
theorem fetchGo_perPage_eq {α : Type} (source : ReqParams → ReqOutcome α) (pp : Nat)
    (mp mr : Option Nat) :
    ∀ fuel page acc req, req ∈ (fetchGo source pp mp mr fuel page acc).2 → req.perPage = pp := by
  intro fuel
  induction fuel with
  | zero =>
    intro page acc req h
    simp [fetchGo] at h
  | succ n ih =>
    intro page acc req h
    rw [fetchGo] at h
    split at h
    · simp at h
    · split at h
      · simp at h
      · rcases hsrc : source ⟨page, pp⟩ with r | _ <;> simp only [hsrc] at h
        · rcases hcl : classifyResponse r with e | body <;> simp only [hcl] at h
          · simp at h
            subst h; rfl
          · split at h
            · simp at h
              subst h; rfl
            · split at h
              · simp at h
                subst h; rfl
              · split at h
                · simp at h
                  subst h; rfl
                · simp only [List.mem_cons] at h
                  rcases h with h | h
                  · subst h; rfl
                  · exact ih _ _ _ h
        · simp at h
          subst h; rfl

/-- With `max_pages = some k`, the loop starting at `page` issues at most
`k + 1 - page` requests. -/
theorem fetchGo_calls_le {α : Type} (source : ReqParams → ReqOutcome α) (pp : Nat)
    (k : Nat) (mr : Option Nat) :
    ∀ fuel page acc,
      (fetchGo source pp (some k) mr fuel page acc).2.length ≤ k + 1 - page := by
  intro fuel
  induction fuel with
  | zero =>
    intro page acc
    simp [fetchGo]
  | succ n ih =>
    intro page acc
    rw [fetchGo]
    split
    · simp
    · rename_i hpl
      have hpage : page ≤ k := by
        simp [pageLimitHit] at hpl
        omega
      split
      · simp
      · rcases hsrc : source ⟨page, pp⟩ with r | _ <;> simp only [hsrc]
        · rcases hcl : classifyResponse r with e | body <;> simp only [hcl]
          · simp
            omega
          · split
            · simp
              omega
            · split
              · simp
                omega
              · split
                · simp
                  omega
                · have := ih (page + 1)
                    (acc ++ body.take (remainingSlots mr acc.length body))
                  simp only [List.length_cons]
                  omega
        · simp
          omega

/-- C4: with `maxPages = k`, at most `k` HTTP calls are made, for every page
source, every `repos_per_page`, every `max_repos` and every fuel value. -/
theorem claim_c4_max_pages_bounds_calls {α : Type} (source : ReqParams → ReqOutcome α)
    (repos_per_page k : Nat) (max_repos : Option Nat) (fuel : Nat) :
    (make_github_api_request source repos_per_page (some k) max_repos fuel).2.length ≤ k := by
  have := fetchGo_calls_le source (min repos_per_page 100) k max_repos fuel 1 []
  simpa [make_github_api_request] using this

/-- C7: every HTTP request issued by a fetch carries
`per_page = min(repos_per_page, 100)`; in particular the effective page size
never exceeds 100, whatever the caller passed. -/
theorem claim_c7_per_page_clamped {α : Type} (source : ReqParams → ReqOutcome α)
    (repos_per_page : Nat) (max_pages max_repos : Option Nat) (fuel : Nat)
    (req : ReqParams)
    (h : req ∈ (make_github_api_request source repos_per_page max_pages max_repos fuel).2) :
    req.perPage = min repos_per_page 100 ∧ req.perPage ≤ 100 := by
  have := fetchGo_perPage_eq source (min repos_per_page 100) max_pages max_repos fuel 1 [] req h
  exact ⟨this, by omega⟩

/-- Witness for C7: a caller-supplied `repos_per_page = 250` is clamped: the
single request issued against a one-page source carries `per_page = 100`. -/
theorem claim_c7_per_page_clamped_witness :
    (⟨1, 100⟩ : ReqParams) ∈ (make_github_api_request (pagesSource [[0]]) 250 none none 2).2 ∧
    (⟨1, 100⟩ : ReqParams).perPage = min 250 100 ∧ (⟨1, 100⟩ : ReqParams).perPage ≤ 100 := by
  refine ⟨by decide, ?_⟩
  exact claim_c7_per_page_clamped (pagesSource [[0]]) 250 none none 2 ⟨1, 100⟩ (by decide)

/-- The error, if any, that the loop body derives from the outcome of one
request: a transport failure maps to `apiError none` (main.py lines 136-137),
a received response is classified by lines 91-101. -/
def outcomeError {α : Type} (o : ReqOutcome α) : Option FetchError :=
  match o with
  | .netError => some (.apiError none)
  | .success r =>
    match classifyResponse r with
    | .error e => some e
    | .ok _ => none

/-- `outcomeError` on a classified-error response. -/
theorem outcomeError_of_err {α : Type} {r : HttpResponse α} {e : FetchError}
    (h : classifyResponse r = .error e) : outcomeError (.success r) = some e := by
  simp [outcomeError, h]

/-- `outcomeError` on a successfully classified response. -/
theorem outcomeError_of_ok {α : Type} {r : HttpResponse α} {body : List α}
    (h : classifyResponse r = .ok body) : outcomeError (.success r) = none := by
  simp [outcomeError, h]

/-- If any request in the issued trace draws an erroneous outcome, the whole
run returns exactly that error — whatever was already accumulated. -/
theorem fetchGo_error_result {α : Type} (source : ReqParams → ReqOutcome α) (pp : Nat)
    (mp mr : Option Nat) :
    ∀ fuel page acc req e, req ∈ (fetchGo source pp mp mr fuel page acc).2 →
      outcomeError (source req) = some e →
      (fetchGo source pp mp mr fuel page acc).1 = some (.error e) := by
  intro fuel
  induction fuel with
  | zero =>
    intro page acc req e h _
    simp [fetchGo] at h
  | succ n ih =>
    intro page acc req e h he
    rw [fetchGo] at h ⊢
    by_cases h1 : pageLimitHit mp page = true
    · simp only [if_pos h1] at h
      simp at h
    · simp only [if_neg h1] at h ⊢
      by_cases h2 : repoLimitHit mr acc.length = true
      · simp only [if_pos h2] at h
        simp at h
      · simp only [if_neg h2] at h ⊢
        rcases hsrc : source ⟨page, pp⟩ with r | _ <;> simp only [hsrc] at h ⊢
        · rcases hcl : classifyResponse r with e' | body <;> simp only [hcl] at h ⊢
          · simp at h
            subst h
            rw [hsrc, outcomeError_of_err hcl] at he
            simp only [Option.some.injEq] at he
            simp [he]
          · by_cases h3 : body.isEmpty = true
            · simp only [if_pos h3] at h
              simp at h
              subst h
              rw [hsrc, outcomeError_of_ok hcl] at he
              exact Option.noConfusion he
            · simp only [if_neg h3] at h ⊢
              by_cases h4 : body.length < pp
              · simp only [if_pos h4] at h
                simp at h
                subst h
                rw [hsrc, outcomeError_of_ok hcl] at he
                exact Option.noConfusion he
              · simp only [if_neg h4] at h ⊢
                by_cases h5 : repoLimitHit mr
                    (acc ++ body.take (remainingSlots mr acc.length body)).length = true
                · simp only [if_pos h5] at h
                  simp at h
                  subst h
                  rw [hsrc, outcomeError_of_ok hcl] at he
                  exact Option.noConfusion he
                · simp only [if_neg h5] at h ⊢
                  simp only [List.mem_cons] at h
                  rcases h with h | h
                  · subst h
                    rw [hsrc, outcomeError_of_ok hcl] at he
                    exact Option.noConfusion he
                  · exact ih _ _ _ _ h he
        · simp at h
          subst h
          simp only [hsrc, outcomeError, Option.some.injEq] at he
          simp [he]

/-- C6: if the loop fails mid-pagination — some issued request ends in
`RateLimitExceeded` or `APIError` — the fetch returns exactly that error and
never a (partial) repository list, regardless of what had been accumulated
from earlier pages. -/
theorem claim_c6_error_drops_partial {α : Type} (source : ReqParams → ReqOutcome α)
    (repos_per_page : Nat) (max_pages max_repos : Option Nat) (fuel : Nat)
    (req : ReqParams) (e : FetchError)
    (hmem : req ∈ (make_github_api_request source repos_per_page max_pages max_repos fuel).2)
    (herr : outcomeError (source req) = some e) :
    (make_github_api_request source repos_per_page max_pages max_repos fuel).1 =
      some (.error e) ∧
    ∀ l : List α,
      (make_github_api_request source repos_per_page max_pages max_repos fuel).1 ≠
        some (.ok l) := by
  have h := fetchGo_error_result source (min repos_per_page 100) max_pages max_repos fuel 1 []
    req e hmem herr
  refine ⟨h, fun l hl => ?_⟩
  rw [make_github_api_request] at hl
  rw [h] at hl
  simp at hl

/-- Witness for C6: page 1 delivers two repositories, page 2 answers 403 with
`X-RateLimit-Remaining: "0"`; the fetch yields `RateLimitExceeded` and the two
accumulated records are dropped. -/
theorem claim_c6_error_drops_partial_witness :
    (make_github_api_request
        (fun req => if req.page = 1 then .success ⟨200, none, [0, 1]⟩
          else .success ⟨403, some "0", []⟩)
        2 none none 3).1 = some (.error .rateLimitExceeded) ∧
    ∀ l : List Nat,
      (make_github_api_request
          (fun req => if req.page = 1 then .success ⟨200, none, [0, 1]⟩
            else .success ⟨403, some "0", []⟩)
          2 none none 3).1 ≠ some (.ok l) :=
  claim_c6_error_drops_partial
    (fun req => if req.page = 1 then .success ⟨200, none, [0, 1]⟩
      else .success ⟨403, some "0", []⟩)
    2 none none 3 ⟨2, 2⟩ .rateLimitExceeded (by decide) (by decide)

/-- C5: whenever the loop is about to issue a request (neither limit has been
hit) and the page comes back with strictly fewer records than the requested
`per_page` count, the loop stops: it makes that one call, appends the page
(truncated to the remaining slots) and returns the accumulator.  In
particular — second conjunct — two pages of 100 then 2 repositories under
default options yield 102 records via exactly 2 HTTP calls. -/
theorem claim_c5_short_page_stops {α : Type} (source : ReqParams → ReqOutcome α)
    (pp : Nat) (mp mr : Option Nat) (fuel page : Nat) (acc : List α)
    (r : HttpResponse α) (body : List α)
    (hfuel : 1 ≤ fuel)
    (hp : pageLimitHit mp page = false)
    (hl : repoLimitHit mr acc.length = false)
    (hsrc : source ⟨page, pp⟩ = .success r)
    (hcl : classifyResponse r = .ok body)
    (hshort : body.length < pp) :
    fetchGo source pp mp mr fuel page acc =
      (some (.ok (acc ++ body.take (remainingSlots mr acc.length body))), [⟨page, pp⟩]) ∧
    make_github_api_request (pagesSource [List.range 100, [100, 101]]) 100 none none 3 =
      (some (.ok (List.range 102)), [⟨1, 100⟩, ⟨2, 100⟩]) := by
  constructor
  · obtain ⟨n, rfl⟩ : ∃ n, fuel = n + 1 := ⟨fuel - 1, by omega⟩
    rw [fetchGo]
    simp only [hp, hl, hsrc, hcl, Bool.false_eq_true, if_false]
    by_cases h3 : body.isEmpty = true
    · have : body = [] := by simpa using h3
      subst this
      simp
    · simp only [if_neg h3, if_pos hshort]
  · rfl

/-- Witness for C5: a single page of one record against `per_page = 100` is a
short page; the loop stops after that one call with the record delivered. -/
theorem claim_c5_short_page_stops_witness :
    fetchGo (pagesSource [[5]]) 100 none none 1 1 ([] : List Nat) =
      (some (.ok ([] ++ [5].take (remainingSlots none 0 [5]))), [⟨1, 100⟩]) ∧
    make_github_api_request (pagesSource [List.range 100, [100, 101]]) 100 none none 3 =
      (some (.ok (List.range 102)), [⟨1, 100⟩, ⟨2, 100⟩]) :=
  claim_c5_short_page_stops (pagesSource [[5]]) 100 none none 1 1 []
    ⟨200, none, [5]⟩ [5] (by decide) (by decide) (by decide) rfl rfl (by decide)

/-- A 200 response is classified as its body. -/
theorem classifyResponse_200 {α : Type} (h : Option String) (b : List α) :
    classifyResponse ⟨200, h, b⟩ = .ok b := rfl

/-- One unfolding of the loop at a state where both limit checks pass and the
request draws a successfully classified response. -/
theorem fetchGo_step_ok {α : Type} {source : ReqParams → ReqOutcome α} {pp : Nat}
    {mp mr : Option Nat} {fuel page : Nat} {acc : List α} {r : HttpResponse α}
    {body : List α}
    (hp : pageLimitHit mp page = false) (hr : repoLimitHit mr acc.length = false)
    (hsrc : source ⟨page, pp⟩ = .success r) (hcl : classifyResponse r = .ok body) :
    fetchGo source pp mp mr (fuel + 1) page acc =
      if body.isEmpty then
        (some (.ok acc), [⟨page, pp⟩])
      else if body.length < pp then
        (some (.ok (acc ++ body.take (remainingSlots mr acc.length body))), [⟨page, pp⟩])
      else if repoLimitHit mr
          (acc ++ body.take (remainingSlots mr acc.length body)).length then
        (some (.ok (acc ++ body.take (remainingSlots mr acc.length body))), [⟨page, pp⟩])
      else
        ((fetchGo source pp mp mr fuel (page + 1)
            (acc ++ body.take (remainingSlots mr acc.length body))).1,
          ⟨page, pp⟩ ::
            (fetchGo source pp mp mr fuel (page + 1)
              (acc ++ body.take (remainingSlots mr acc.length body))).2) := by
  rw [fetchGo]
  simp only [hp, hr, hsrc, hcl, Bool.false_eq_true, if_false]

/-- Characterization of a run with no repository limit against a structured
page source: every page before the last has exactly `pp` records and the last
is shorter (possibly empty).  The run returns everything and makes one call
per page. -/
theorem fetchGo_structured_none {α : Type} (source : ReqParams → ReqOutcome α) (pp : Nat)
    (hpp : 0 < pp) :
    ∀ (F : List (List α)) (L : List α) (page : Nat) (acc : List α) (fuel : Nat),
      (∀ p ∈ F, p.length = pp) → L.length < pp →
      (∀ i, i ≤ F.length → source ⟨page + i, pp⟩ = .success ⟨200, none, (F ++ [L]).getD i []⟩) →
      F.length + 1 ≤ fuel →
      (fetchGo source pp none none fuel page acc).1 = some (.ok (acc ++ (F.flatten ++ L))) ∧
      (fetchGo source pp none none fuel page acc).2.length = F.length + 1 := by
  intro F
  induction F with
  | nil =>
    intro L page acc fuel _ hL hsrc hfuel
    obtain ⟨n, rfl⟩ : ∃ n, fuel = n + 1 := ⟨fuel - 1, by omega⟩
    have hs : source ⟨page, pp⟩ = .success ⟨200, none, L⟩ := by
      have := hsrc 0 (by omega)
      simpa using this
    rw [fetchGo_step_ok (rfl : pageLimitHit (none : Option Nat) page = false)
      (rfl : repoLimitHit (none : Option Nat) acc.length = false) hs
      (classifyResponse_200 none L)]
    by_cases hLe : L.isEmpty = true
    · have : L = [] := by simpa using hLe
      subst this
      simp
    · simp only [if_neg hLe, if_pos hL]
      simp [remainingSlots, List.take_of_length_le (le_refl L.length)]
  | cons P F' ih =>
    intro L page acc fuel hF hL hsrc hfuel
    obtain ⟨n, rfl⟩ : ∃ n, fuel = n + 1 := ⟨fuel - 1, by omega⟩
    have hs : source ⟨page, pp⟩ = .success ⟨200, none, P⟩ := by
      have := hsrc 0 (by omega)
      simpa using this
    have hPlen : P.length = pp := hF P (by simp)
    have hPne : ¬P.isEmpty = true := by
      simp only [List.isEmpty_iff]
      intro h
      rw [h] at hPlen
      simp at hPlen
      omega
    rw [fetchGo_step_ok (rfl : pageLimitHit (none : Option Nat) page = false)
      (rfl : repoLimitHit (none : Option Nat) acc.length = false) hs
      (classifyResponse_200 none P)]
    simp only [if_neg hPne]
    have hnotshort : ¬P.length < pp := by omega
    simp only [if_neg hnotshort]
    have htake : P.take (remainingSlots (none : Option Nat) acc.length P) = P := by
      simp [remainingSlots]
    rw [htake]
    simp only [repoLimitHit, Bool.false_eq_true, if_false]
    have hsrc' : ∀ i, i ≤ F'.length →
        source ⟨page + 1 + i, pp⟩ = .success ⟨200, none, (F' ++ [L]).getD i []⟩ := by
      intro i hi
      have := hsrc (i + 1) (by simp; omega)
      have harith : page + (i + 1) = page + 1 + i := by omega
      rw [harith] at this
      simpa using this
    have hF' : ∀ p ∈ F', p.length = pp := fun p hp' => hF p (List.mem_cons_of_mem _ hp')
    have hrec := ih L (page + 1) (acc ++ P) n hF' hL hsrc' (by simp at hfuel ⊢; omega)
    refine ⟨?_, ?_⟩
    · rw [hrec.1]
      simp [List.flatten_cons, List.append_assoc]
    · simp only [List.length_cons]
      rw [hrec.2]

/-- Ceiling division `⌈x / pp⌉` is 1 on `1 ≤ x ≤ pp`. -/
theorem ceil_div_eq_one {pp x : Nat} (hx1 : 1 ≤ x) (hx2 : x ≤ pp) :
    (x + pp - 1) / pp = 1 := by
  refine Nat.div_eq_of_lt_le (by omega) (by omega)

/-- Ceiling division peels off one full block when `x` exceeds `pp`. -/
theorem ceil_div_peel {pp x : Nat} (hpp : 0 < pp) (h : pp < x) :
    (x + pp - 1) / pp = (x - pp + pp - 1) / pp + 1 := by
  have heq : x + pp - 1 = (x - pp + pp - 1) + pp := by omega
  rw [heq, Nat.add_div_right _ hpp]

/-- Characterization of a run with `max_repos = some m` against a structured
page source: the result is the concatenation truncated to the remaining
slots, and the call count is the lesser of `⌈(m - |acc|) / pp⌉` and the
number of pages the source holds. -/
theorem fetchGo_structured_some {α : Type} (source : ReqParams → ReqOutcome α)
    (pp m : Nat) (hpp : 0 < pp) :
    ∀ (F : List (List α)) (L : List α) (page : Nat) (acc : List α) (fuel : Nat),
      (∀ p ∈ F, p.length = pp) → L.length < pp →
      (∀ i, i ≤ F.length → source ⟨page + i, pp⟩ = .success ⟨200, none, (F ++ [L]).getD i []⟩) →
      F.length + 1 ≤ fuel →
      acc.length < m →
      (fetchGo source pp none (some m) fuel page acc).1 =
        some (.ok (acc ++ (F.flatten ++ L).take (m - acc.length))) ∧
      (fetchGo source pp none (some m) fuel page acc).2.length =
        min ((m - acc.length + pp - 1) / pp) (F.length + 1) := by
  intro F
  induction F with
  | nil =>
    intro L page acc fuel _ hL hsrc hfuel hacc
    obtain ⟨n, rfl⟩ : ∃ n, fuel = n + 1 := ⟨fuel - 1, by omega⟩
    have hs : source ⟨page, pp⟩ = .success ⟨200, none, L⟩ := by
      have := hsrc 0 (by omega)
      simpa using this
    have hr : repoLimitHit (some m) acc.length = false := by
      simp only [repoLimitHit, decide_eq_false_iff_not]
      omega
    rw [fetchGo_step_ok (rfl : pageLimitHit (none : Option Nat) page = false) hr hs
      (classifyResponse_200 none L)]
    have hcall : min ((m - acc.length + pp - 1) / pp) 1 = 1 := by
      have : 1 ≤ (m - acc.length + pp - 1) / pp := by
        rw [Nat.one_le_div_iff hpp]
        omega
      omega
    by_cases hLe : L.isEmpty = true
    · have : L = [] := by simpa using hLe
      subst this
      simp [hcall]
    · simp only [if_neg hLe, if_pos hL]
      refine ⟨?_, by simpa using hcall⟩
      simp [remainingSlots]
  | cons P F' ih =>
    intro L page acc fuel hF hL hsrc hfuel hacc
    obtain ⟨n, rfl⟩ : ∃ n, fuel = n + 1 := ⟨fuel - 1, by omega⟩
    have hs : source ⟨page, pp⟩ = .success ⟨200, none, P⟩ := by
      have := hsrc 0 (by omega)
      simpa using this
    have hPlen : P.length = pp := hF P (by simp)
    have hPne : ¬P.isEmpty = true := by
      simp only [List.isEmpty_iff]
      intro h
      rw [h] at hPlen
      simp at hPlen
      omega
    have hr : repoLimitHit (some m) acc.length = false := by
      simp only [repoLimitHit, decide_eq_false_iff_not]
      omega
    rw [fetchGo_step_ok (rfl : pageLimitHit (none : Option Nat) page = false) hr hs
      (classifyResponse_200 none P)]
    simp only [if_neg hPne]
    have hnotshort : ¬P.length < pp := by omega
    simp only [if_neg hnotshort]
    have hslots : remainingSlots (some m) acc.length P = m - acc.length := rfl
    rw [hslots]
    have hlen' : (acc ++ P.take (m - acc.length)).length =
        acc.length + min (m - acc.length) pp := by
      simp [List.length_take, hPlen]
    by_cases hcase : m - acc.length ≤ pp
    · have hhit : repoLimitHit (some m)
          (acc ++ P.take (m - acc.length)).length = true := by
        simp only [repoLimitHit, decide_eq_true_eq]
        rw [hlen']
        omega
      rw [if_pos hhit]
      constructor
      · have htk : ((P :: F').flatten ++ L).take (m - acc.length) =
            P.take (m - acc.length) := by
          rw [List.flatten_cons, List.append_assoc, List.take_append_eq_append_take]
          have : m - acc.length - P.length = 0 := by omega
          rw [this]
          simp
        rw [htk]
      · have h1 : (m - acc.length + pp - 1) / pp = 1 :=
          ceil_div_eq_one (by omega) hcase
        simp [h1]
    · have htakeP : P.take (m - acc.length) = P :=
        List.take_of_length_le (by omega)
      rw [htakeP]
      have hhit : repoLimitHit (some m) (acc ++ P).length = false := by
        simp only [repoLimitHit, decide_eq_false_iff_not, List.length_append, hPlen]
        omega
      simp only [hhit, Bool.false_eq_true, if_false]
      have hsrc' : ∀ i, i ≤ F'.length →
          source ⟨page + 1 + i, pp⟩ = .success ⟨200, none, (F' ++ [L]).getD i []⟩ := by
        intro i hi
        have := hsrc (i + 1) (by simp; omega)
        have harith : page + (i + 1) = page + 1 + i := by omega
        rw [harith] at this
        simpa using this
      have hF' : ∀ p ∈ F', p.length = pp := fun p hp' => hF p (List.mem_cons_of_mem _ hp')
      have hacclen : (acc ++ P).length = acc.length + pp := by
        simp [hPlen]
      have hrec := ih L (page + 1) (acc ++ P) n hF' hL hsrc'
        (by simp at hfuel ⊢; omega) (by rw [hacclen]; omega)
      refine ⟨?_, ?_⟩
      · rw [hrec.1, hacclen]
        have hsplit : ((P :: F').flatten ++ L).take (m - acc.length) =
            P ++ (F'.flatten ++ L).take (m - (acc.length + pp)) := by
          rw [List.flatten_cons, List.append_assoc, List.take_append_eq_append_take, htakeP,
            hPlen]
          congr 2
          omega
        rw [hsplit, ← List.append_assoc]
      · simp only [List.length_cons]
        rw [hrec.2, hacclen]
        have hpeel : (m - acc.length + pp - 1) / pp =
            (m - (acc.length + pp) + pp - 1) / pp + 1 := by
          have := @ceil_div_peel pp (m - acc.length) hpp (by omega)
          rw [this]
          congr 2
          omega
        rw [hpeel]
        omega

/-- Counterexample to C1 as stated: pages of exactly `perPage = 50` records
followed by an empty page, with `maxRepos = 10`.  The first page would exceed
`maxRepos`, so "the concatenation of all pages up to but not including the
first page that would exceed maxRepos" is the empty concatenation; the code
instead returns the first 10 records of that page (a proper prefix, neither
the empty list nor the whole page). -/
theorem claim_c1_counterexample :
    (make_github_api_request (pagesSource [List.range 50]) 50 none (some 10) 2).1 =
      some (.ok (List.range 10)) ∧
    (make_github_api_request (pagesSource [List.range 50]) 50 none (some 10) 2).2 =
      [⟨1, 50⟩] ∧
    List.range 10 ≠ ([] : List Nat) ∧ List.range 10 ≠ List.range 50 :=
  ⟨rfl, rfl, by decide, by decide⟩

/-- C1 (amended): against a source whose pages all have exactly `pp` records
except a final shorter-or-empty one, fetch returns the concatenation of the
pages truncated to `maxRepos` — the page on which the limit is reached is
included as a prefix, not excluded — and the number of HTTP calls is
`F.length + 1` when `maxRepos` is unset, and
`min(⌈maxRepos / pp⌉, F.length + 1)` when `maxRepos = m`. -/
theorem claim_c1_pagination_amended {α : Type} (source : ReqParams → ReqOutcome α)
    (pp : Nat) (F : List (List α)) (L : List α) (fuel : Nat)
    (hpp : 0 < pp) (hpp100 : pp ≤ 100)
    (hF : ∀ p ∈ F, p.length = pp) (hL : L.length < pp)
    (hsrc : ∀ i, i ≤ F.length →
      source ⟨1 + i, pp⟩ = .success ⟨200, none, (F ++ [L]).getD i []⟩)
    (hfuel : F.length + 1 ≤ fuel) :
    ((make_github_api_request source pp none none fuel).1 =
        some (.ok (F.flatten ++ L)) ∧
      (make_github_api_request source pp none none fuel).2.length = F.length + 1) ∧
    ∀ m : Nat, 0 < m →
      (make_github_api_request source pp none (some m) fuel).1 =
        some (.ok ((F.flatten ++ L).take m)) ∧
      (make_github_api_request source pp none (some m) fuel).2.length =
        min ((m + pp - 1) / pp) (F.length + 1) := by
  have hmin : min pp 100 = pp := by omega
  constructor
  · have h := fetchGo_structured_none source pp hpp F L 1 [] fuel hF hL hsrc hfuel
    rw [make_github_api_request, hmin]
    simpa using h
  · intro m hm
    have h := fetchGo_structured_some source pp m hpp F L 1 [] fuel hF hL hsrc hfuel
      (by simpa using hm)
    rw [make_github_api_request, hmin]
    simpa using h

/-- Witness for C1 (amended): one full page `[0, 1]` (`pp = 2`) and a short
page `[2]`; with no repository limit everything is returned in 2 calls, with
`maxRepos = 1` a one-record prefix is returned in 1 call. -/
theorem claim_c1_pagination_amended_witness :
    ((make_github_api_request (pagesSource [[0, 1], [2]]) 2 none none 2).1 =
        some (.ok (([[0, 1]] : List (List Nat)).flatten ++ [2])) ∧
      (make_github_api_request (pagesSource [[0, 1], [2]]) 2 none none 2).2.length = 2) ∧
    ((make_github_api_request (pagesSource [[0, 1], [2]]) 2 none (some 1) 2).1 =
        some (.ok ((([[0, 1]] : List (List Nat)).flatten ++ [2]).take 1)) ∧
      (make_github_api_request (pagesSource [[0, 1], [2]]) 2 none (some 1) 2).2.length =
        min ((1 + 2 - 1) / 2) 2) := by
  have h := claim_c1_pagination_amended (pagesSource [[0, 1], [2]]) 2 [[0, 1]] [2] 2
    (by decide) (by decide) (by decide) (by decide) (by decide) (by decide)
  exact ⟨h.1, h.2 1 (by decide)⟩

/-- C2: with `maxRepos = m > 0` against a structured page source, the
returned sequence has length exactly `min(m, totalAvailable)`; and — the
claim's scenario — with `perPage = 50`, `maxRepos = 10` and a first page of
50 records, exactly 10 records are returned with exactly 1 HTTP call. -/
theorem claim_c2_max_repos_length {α : Type} (source : ReqParams → ReqOutcome α)
    (pp m : Nat) (F : List (List α)) (L : List α) (fuel : Nat)
    (hpp : 0 < pp) (hpp100 : pp ≤ 100) (hm : 0 < m)
    (hF : ∀ p ∈ F, p.length = pp) (hL : L.length < pp)
    (hsrc : ∀ i, i ≤ F.length →
      source ⟨1 + i, pp⟩ = .success ⟨200, none, (F ++ [L]).getD i []⟩)
    (hfuel : F.length + 1 ≤ fuel) :
    (∃ l : List α,
      (make_github_api_request source pp none (some m) fuel).1 = some (.ok l) ∧
      l.length = min m (F.flatten ++ L).length) ∧
    (make_github_api_request (pagesSource [List.range 50]) 50 none (some 10) 2).1 =
      some (.ok (List.range 10)) ∧
    (make_github_api_request (pagesSource [List.range 50]) 50 none (some 10) 2).2.length =
      1 := by
  refine ⟨?_, rfl, rfl⟩
  have hmin : min pp 100 = pp := by omega
  have h := fetchGo_structured_some source pp m hpp F L 1 [] fuel hF hL hsrc hfuel
    (by simpa using hm)
  refine ⟨(F.flatten ++ L).take m, ?_, by simp [List.length_take]⟩
  rw [make_github_api_request, hmin]
  simpa using h.1

/-- Witness for C2: the structured source `[[0, 1], [2]]` with `maxRepos = 2`
returns a sequence of length `min 2 3 = 2`. -/
theorem claim_c2_max_repos_length_witness :
    (∃ l : List Nat,
      (make_github_api_request (pagesSource [[0, 1], [2]]) 2 none (some 2) 2).1 =
        some (.ok l) ∧
      l.length = min 2 (([[0, 1]] : List (List Nat)).flatten ++ [2]).length) ∧
    (make_github_api_request (pagesSource [List.range 50]) 50 none (some 10) 2).1 =
      some (.ok (List.range 10)) ∧
    (make_github_api_request (pagesSource [List.range 50]) 50 none (some 10) 2).2.length =
      1 :=
  claim_c2_max_repos_length (pagesSource [[0, 1], [2]]) 2 2 [[0, 1]] [2] 2
    (by decide) (by decide) (by decide) (by decide) (by decide) (by decide) (by decide)

/-- Counterexample to C3 as stated: `response.raise_for_status()` raises only
for statuses in `[400, 600)`.  A response whose status is 300 — not a 2xx —
with a JSON array body is not turned into an `APIError`: the loop treats its
body as a data page and returns it. -/
theorem claim_c3_counterexample :
    (¬ (200 ≤ 300 ∧ 300 ≤ 299)) ∧
    classifyResponse (⟨300, none, [0]⟩ : HttpResponse Nat) = .ok [0] ∧
    (make_github_api_request (fun _ => .success ⟨300, none, [0]⟩) 100 none none 2).1 =
      some (.ok [0]) ∧
    ∀ e, (make_github_api_request (fun _ => .success ⟨300, none, [0]⟩) 100 none none 2).1 ≠
      some (.error e) :=
  ⟨by decide, rfl, rfl, fun _ h => Except.noConfusion (Option.some.inj h)⟩

/-- C3 (amended): a 403 response fails with `RateLimitExceeded` exactly when
the `X-RateLimit-Remaining` header is the string `"0"`, and with `APIError`
carrying status 403 otherwise; any other status in `[400, 600)` — the range
covered by `raise_for_status`, rather than every non-2xx status — fails with
`APIError` carrying that status; and both error kinds are fatal: the request
that draws an error is the last one issued, the loop performs no retry. -/
theorem claim_c3_error_classification (α : Type) :
    (∀ r : HttpResponse α, r.status = 403 →
      (classifyResponse r = .error .rateLimitExceeded ↔
        r.rateLimitRemaining = some "0")) ∧
    (∀ r : HttpResponse α, r.status = 403 → r.rateLimitRemaining ≠ some "0" →
      classifyResponse r = .error (.apiError (some 403))) ∧
    (∀ r : HttpResponse α, r.status ≠ 403 → 400 ≤ r.status → r.status < 600 →
      classifyResponse r = .error (.apiError (some r.status))) ∧
    (∀ (source : ReqParams → ReqOutcome α) (pp : Nat) (mp mr : Option Nat)
        (fuel page : Nat) (acc : List α) (r : HttpResponse α) (e : FetchError),
      pageLimitHit mp page = false → repoLimitHit mr acc.length = false →
      source ⟨page, pp⟩ = .success r → classifyResponse r = .error e →
      fetchGo source pp mp mr (fuel + 1) page acc = (some (.error e), [⟨page, pp⟩])) := by
  refine ⟨?_, ?_, ?_, ?_⟩
  · intro r h403
    unfold classifyResponse
    rw [if_pos h403]
    by_cases hrem : r.rateLimitRemaining = some "0"
    · simp [hrem]
    · simp [hrem]
  · intro r h403 hrem
    unfold classifyResponse
    rw [if_pos h403, if_neg hrem, h403]
  · intro r h403 h4 h6
    unfold classifyResponse
    rw [if_neg h403, if_pos ⟨h4, h6⟩]
  · intro source pp mp mr fuel page acc r e hp hr hsrc hcl
    rw [fetchGo]
    simp only [hp, hr, hsrc, hcl, Bool.false_eq_true, if_false]

/-- Witness for C3 (amended): the three classifications at concrete
responses, and a 404 at page 1 ending the run with that error after exactly
one call. -/
theorem claim_c3_error_classification_witness :
    (classifyResponse (⟨403, some "0", ([] : List Nat)⟩ : HttpResponse Nat) =
        .error .rateLimitExceeded ↔
      (⟨403, some "0", ([] : List Nat)⟩ : HttpResponse Nat).rateLimitRemaining =
        some "0") ∧
    classifyResponse (⟨403, some "1", ([] : List Nat)⟩ : HttpResponse Nat) =
      .error (.apiError (some 403)) ∧
    classifyResponse (⟨404, none, ([] : List Nat)⟩ : HttpResponse Nat) =
      .error (.apiError (some 404)) ∧
    fetchGo (fun _ => .success ⟨404, none, []⟩) 100 none none 1 1 ([] : List Nat) =
      (some (.error (.apiError (some 404))), [⟨1, 100⟩]) := by
  have h := claim_c3_error_classification Nat
  exact ⟨h.1 ⟨403, some "0", []⟩ rfl,
    h.2.1 ⟨403, some "1", []⟩ rfl (by decide),
    h.2.2.1 ⟨404, none, []⟩ (by decide) (by decide) (by decide),
    h.2.2.2 (fun _ => .success ⟨404, none, []⟩) 100 none none 0 1 [] ⟨404, none, []⟩
      (.apiError (some 404)) rfl rfl rfl rfl⟩

/-! ## JSON values and the Presenter

`format_repository_output` (main.py lines 140-180) receives a repository
record — a Python dict deserialized from JSON.  JSON values are modelled by
the mutual inductives below; numbers are restricted to integers (every
numeric field of the repository payload is integral) and object member lists
model Python dicts, whose keys are unique. -/

mutual
inductive JsonValue where
  | null
  | bool (b : Bool)
  | num (n : Int)
  | str (s : String)
  | arr (xs : JsonArr)
  | obj (ms : JsonObj)
inductive JsonArr where
  | nil
  | cons (hd : JsonValue) (tl : JsonArr)
inductive JsonObj where
  | nil
  | cons (key : String) (val : JsonValue) (tl : JsonObj)
end

/-- The double-quote character. -/
def qMark : Char := Char.ofNat 34

/-- The single-quote character. -/
def sQuote : Char := Char.ofNat 39

/-- Lowercase hexadecimal digit, as produced by Python's `%04x` formatting. -/
def hexDig (d : Nat) : Char :=
  if d < 10 then Char.ofNat (48 + d) else Char.ofNat (87 + d)

/-- Four lowercase hex digits of `n < 0x10000`. -/
def hex4 (n : Nat) : List Char :=
  [hexDig (n / 4096 % 16), hexDig (n / 256 % 16), hexDig (n / 16 % 16), hexDig (n % 16)]

/-- One character of a JSON string under `json.dumps`'s default
`ensure_ascii=True` encoder: `"` and `\` are escaped, the five control
characters with short escapes use them, other control characters and every
character above `0x7e` become `\uXXXX` (a surrogate pair beyond the BMP). -/
def encodeChar (c : Char) : List Char :=
  if c = qMark then ['\\', qMark]
  else if c = '\\' then ['\\', '\\']
  else if c = '\x08' then ['\\', 'b']
  else if c = '\x0c' then ['\\', 'f']
  else if c = '\n' then ['\\', 'n']
  else if c = '\r' then ['\\', 'r']
  else if c = '\t' then ['\\', 't']
  else if c.toNat < 0x20 then '\\' :: 'u' :: hex4 c.toNat
  else if c.toNat ≤ 0x7e then [c]
  else if c.toNat < 0x10000 then '\\' :: 'u' :: hex4 c.toNat
  else
    '\\' :: 'u' :: hex4 (0xd800 + (c.toNat - 0x10000) / 0x400) ++
      ('\\' :: 'u' :: hex4 (0xdc00 + (c.toNat - 0x10000) % 0x400))

/-- Encoded characters of a string body. -/
def encChars : List Char → List Char
  | [] => []
  | c :: cs => encodeChar c ++ encChars cs

/-- A JSON string literal: quote, encoded body, quote. -/
def encodeString (s : String) : List Char :=
  qMark :: (encChars s.data ++ [qMark])

/-- Decimal digits of a natural number, most significant first (Python
`repr`). -/
def natToDigits (n : Nat) : List Char :=
  if n < 10 then [Char.ofNat (48 + n)]
  else natToDigits (n / 10) ++ [Char.ofNat (48 + n % 10)]
decreasing_by exact Nat.div_lt_self (by omega) (by omega)

/-- Python's decimal rendering of an integer. -/
def intRepr : Int → List Char
  | .ofNat n => natToDigits n
  | .negSucc n => '-' :: natToDigits (n + 1)

/-- The newline-plus-indentation emitted by `json.dumps(·, indent=2)` before
an element at nesting level `lvl`. -/
def nlIndent (lvl : Nat) : List Char :=
  '\n' :: List.replicate (2 * lvl) ' '

mutual
/-- `json.dumps(v, indent=2)` (main.py line 152): with an indent, the item
separator is `","` followed by the newline-indent, the key separator is
`": "`, and containers open/close with newline-indents around their items. -/
def dumpsVal : Nat → JsonValue → List Char
  | _, .null => ['n', 'u', 'l', 'l']
  | _, .bool true => ['t', 'r', 'u', 'e']
  | _, .bool false => ['f', 'a', 'l', 's', 'e']
  | _, .num n => intRepr n
  | _, .str s => encodeString s
  | _, .arr .nil => ['[', ']']
  | lvl, .arr (.cons x xs) =>
    '[' :: (nlIndent (lvl + 1) ++ dumpsVal (lvl + 1) x ++ dumpsItems (lvl + 1) xs ++
      (nlIndent lvl ++ [']']))
  | _, .obj .nil => ['\x7b', '\x7d']
  | lvl, .obj (.cons k v ms) =>
    '\x7b' :: (nlIndent (lvl + 1) ++ encodeString k ++ ':' :: ' ' :: dumpsVal (lvl + 1) v ++
      dumpsMembers (lvl + 1) ms ++ (nlIndent lvl ++ ['\x7d']))

/-- Second and later array items, each preceded by `","` and the indent. -/
def dumpsItems : Nat → JsonArr → List Char
  | _, .nil => []
  | lvl, .cons x xs => ',' :: (nlIndent lvl ++ dumpsVal lvl x ++ dumpsItems lvl xs)

/-- Second and later object members. -/
def dumpsMembers : Nat → JsonObj → List Char
  | _, .nil => []
  | lvl, .cons k v ms =>
    ',' :: (nlIndent lvl ++ encodeString k ++ ':' :: ' ' :: dumpsVal lvl v ++
      dumpsMembers lvl ms)
end

/-! ## A model of `json.loads`

Restricted to the integer-number fragment produced by `dumpsVal` (a fraction
or exponent makes the parse fail instead of producing a float), and to
strings without lone surrogate escapes (Python would produce a lone
surrogate code unit, which is not a Unicode scalar value).  Duplicate object
keys follow Python dict semantics: assignment in place, last value wins. -/

/-- JSON whitespace accepted between tokens: space, tab, newline, carriage
return. -/
def isWsChar (c : Char) : Bool :=
  c.toNat = 32 || c.toNat = 9 || c.toNat = 10 || c.toNat = 13

/-- Drop leading whitespace. -/
def skipWs : List Char → List Char
  | [] => []
  | c :: cs => if isWsChar c then skipWs cs else c :: cs

/-- Hex digit value, upper or lower case. -/
def hexVal (c : Char) : Option Nat :=
  if 48 ≤ c.toNat ∧ c.toNat ≤ 57 then some (c.toNat - 48)
  else if 97 ≤ c.toNat ∧ c.toNat ≤ 102 then some (c.toNat - 87)
  else if 65 ≤ c.toNat ∧ c.toNat ≤ 70 then some (c.toNat - 55)
  else none

/-- Parse four hex digits (upper or lower case) into their value. -/
def parseHex4 : List Char → Option (Nat × List Char)
  | h1 :: h2 :: h3 :: h4 :: rest =>
    (hexVal h1).bind (fun a => (hexVal h2).bind (fun b => (hexVal h3).bind (fun c =>
      (hexVal h4).map (fun d => (((a * 16 + b) * 16 + c) * 16 + d, rest)))))
  | _ => none

/-- Decode the payload of a `\uXXXX` escape (input starts after `\u`):
a high surrogate must be followed by a `\uXXXX` low surrogate and the pair is
recombined; a lone surrogate fails (Python would produce a lone surrogate
code unit, which no Unicode scalar value — no Lean `Char` — can carry). -/
def decodeU (l : List Char) : Option (Char × List Char) :=
  (parseHex4 l).bind (fun p =>
    if 0xd800 ≤ p.1 ∧ p.1 ≤ 0xdbff then
      match p.2 with
      | e2 :: u2 :: rest2 =>
        if e2 = '\\' ∧ u2 = 'u' then
          (parseHex4 rest2).bind (fun q =>
            if 0xdc00 ≤ q.1 ∧ q.1 ≤ 0xdfff then
              some (Char.ofNat (0x10000 + (p.1 - 0xd800) * 0x400 + (q.1 - 0xdc00)), q.2)
            else none)
        else none
      | _ => none
    else if 0xdc00 ≤ p.1 ∧ p.1 ≤ 0xdfff then none
    else some (Char.ofNat p.1, p.2))

/-- Decode one backslash escape (input starts after the backslash). -/
def decodeEscape : List Char → Option (Char × List Char)
  | [] => none
  | e :: cs =>
    if e = qMark then some (qMark, cs)
    else if e = '\\' then some ('\\', cs)
    else if e = '/' then some ('/', cs)
    else if e = 'b' then some ('\x08', cs)
    else if e = 'f' then some ('\x0c', cs)
    else if e = 'n' then some ('\n', cs)
    else if e = 'r' then some ('\r', cs)
    else if e = 't' then some ('\t', cs)
    else if e = 'u' then decodeU cs
    else none

/-- Parse a JSON string body after the opening quote, decoding escapes;
returns the decoded characters and the input after the closing quote.  The
fuel bounds the number of decoded characters (the callers pass the input
length, which always suffices); unescaped control characters are rejected as
in the strict mode of Python. -/
def parseStringBody : Nat → List Char → Option (List Char × List Char)
  | 0, _ => none
  | fuel + 1, input =>
    match input with
    | [] => none
    | c :: cs =>
      if c = qMark then some ([], cs)
      else if c = '\\' then
        match decodeEscape cs with
        | none => none
        | some (d, cs2) => (parseStringBody fuel cs2).map (fun p => (d :: p.1, p.2))
      else if c.toNat < 0x20 then none
      else (parseStringBody fuel cs).map (fun p => (c :: p.1, p.2))

/-- Decimal digit test. -/
def isDigitCh (c : Char) : Bool :=
  decide (48 ≤ c.toNat ∧ c.toNat ≤ 57)

/-- Split off the longest digit run. -/
def spanDigits : List Char → List Char × List Char
  | [] => ([], [])
  | c :: cs =>
    if isDigitCh c then ((c :: (spanDigits cs).1), (spanDigits cs).2)
    else ([], c :: cs)

/-- Value of a digit run, most significant first. -/
def digitsToNat (l : List Char) : Nat :=
  l.foldl (fun a c => a * 10 + (c.toNat - 48)) 0

/-- Parse an unsigned integer; fails on an empty digit run and on a fraction
or exponent (outside the integer fragment of this model). -/
def parseNatNum (l : List Char) : Option (Nat × List Char) :=
  match spanDigits l with
  | ([], _) => none
  | (ds, rest) =>
    match rest with
    | [] => some (digitsToNat ds, [])
    | c :: _ =>
      if c = '.' ∨ c = 'e' ∨ c = 'E' then none
      else some (digitsToNat ds, rest)

/-- Python dict assignment `d[k] = v`: replace in place when the key exists,
append otherwise. -/
def insertKey : JsonObj → String → JsonValue → JsonObj
  | .nil, k, v => .cons k v .nil
  | .cons k' v' tl, k, v =>
    if k' = k then .cons k' v tl else .cons k' v' (insertKey tl k v)

mutual
/-- Parse one JSON value (fuel-indexed; every recursive call decreases the
fuel, and `jsize` fuel suffices for any value produced by `dumpsVal`). -/
def parseValue : Nat → List Char → Option (JsonValue × List Char)
  | 0, _ => none
  | fuel + 1, input =>
    match skipWs input with
    | [] => none
    | c :: cs =>
      if c = 'n' then
        match cs with
        | 'u' :: 'l' :: 'l' :: r => some (.null, r)
        | _ => none
      else if c = 't' then
        match cs with
        | 'r' :: 'u' :: 'e' :: r => some (.bool true, r)
        | _ => none
      else if c = 'f' then
        match cs with
        | 'a' :: 'l' :: 's' :: 'e' :: r => some (.bool false, r)
        | _ => none
      else if c = qMark then
        (parseStringBody cs.length cs).map (fun p => (.str ⟨p.1⟩, p.2))
      else if c = '[' then
        match skipWs cs with
        | ']' :: r => some (.arr .nil, r)
        | rest => (parseItems fuel rest).map (fun p => (.arr p.1, p.2))
      else if c = '\x7b' then
        match skipWs cs with
        | '\x7d' :: r => some (.obj .nil, r)
        | rest => (parseMembers fuel .nil rest).map (fun p => (.obj p.1, p.2))
      else if c = '-' then
        (parseNatNum cs).map (fun p => (.num (-(p.1 : Int)), p.2))
      else if isDigitCh c then
        (parseNatNum (c :: cs)).map (fun p => (.num (p.1 : Int), p.2))
      else none

/-- Parse the items of a non-empty array up to and including `]`. -/
def parseItems : Nat → List Char → Option (JsonArr × List Char)
  | 0, _ => none
  | fuel + 1, input =>
    match parseValue fuel input with
    | none => none
    | some (v, rest) =>
      match skipWs rest with
      | ',' :: r =>
        match parseItems fuel r with
        | some (xs, r2) => some (.cons v xs, r2)
        | none => none
      | ']' :: r => some (.cons v .nil, r)
      | _ => none

/-- Parse the members of a non-empty object up to and including the closing
brace, folding each pair into the accumulator with `insertKey`. -/
def parseMembers : Nat → JsonObj → List Char → Option (JsonObj × List Char)
  | 0, _, _ => none
  | fuel + 1, acc, input =>
    match skipWs input with
    | [] => none
    | c :: cs =>
      if c = qMark then
        match parseStringBody cs.length cs with
        | none => none
        | some (kChars, rest) =>
          match skipWs rest with
          | [] => none
          | c2 :: r2 =>
            if c2 = ':' then
              match parseValue fuel r2 with
              | none => none
              | some (v, r3) =>
                match skipWs r3 with
                | [] => none
                | c3 :: r4 =>
                  if c3 = ',' then parseMembers fuel (insertKey acc ⟨kChars⟩ v) r4
                  else if c3 = '\x7d' then some (insertKey acc ⟨kChars⟩ v, r4)
                  else none
            else none
      else none
end

/-- `json.loads` on a whole document: one value, then only trailing
whitespace. -/
def json_loads (s : String) : Option JsonValue :=
  match parseValue s.data.length s.data with
  | some (v, rest) => if (skipWs rest).isEmpty then some v else none
  | none => none

/-! ## Round-trip infrastructure -/

/-- `Char.ofNat` evaluates to the given code point when it is valid. -/
theorem toNat_ofNat_valid (n : Nat) (h : n.isValidChar) : (Char.ofNat n).toNat = n := by
  unfold Char.ofNat
  rw [dif_pos h]
  unfold Char.ofNatAux
  simp [Char.toNat, UInt32.toNat, BitVec.toNat_ofNatLt]

/-- Every `Char` carries a valid code point. -/
theorem char_isValid (c : Char) : c.toNat.isValidChar := c.valid

/-- `Char.ofNat` inverts `Char.toNat`. -/
theorem ofNat_toNat_self (c : Char) : Char.ofNat c.toNat = c := by
  have h1 : (Char.ofNat c.toNat).toNat = c.toNat := toNat_ofNat_valid _ (char_isValid c)
  exact Char.eq_of_val_eq (UInt32.ext h1)

/-- A `Char` is never a surrogate code point. -/
theorem char_not_surrogate (c : Char) : c.toNat < 0xd800 ∨ 0xe000 ≤ c.toNat := by
  rcases char_isValid c with h | h
  · exact Or.inl h
  · exact Or.inr h.1

/-- A `Char` code point is below `0x110000`. -/
theorem char_lt (c : Char) : c.toNat < 0x110000 := by
  rcases char_isValid c with h | h
  · omega
  · exact h.2

/-- All characters of a run are whitespace. -/
def wsAll (l : List Char) : Bool :=
  l.all isWsChar

/-- `skipWs` removes a leading whitespace run. -/
theorem skipWs_ws_append (ws l : List Char) (h : wsAll ws = true) :
    skipWs (ws ++ l) = skipWs l := by
  induction ws with
  | nil => rfl
  | cons c cs ih =>
    simp only [wsAll, List.all_cons, Bool.and_eq_true] at h
    simp only [List.cons_append, skipWs, if_pos h.1]
    exact ih (by simpa [wsAll] using h.2)

/-- `skipWs` is the identity on input with a non-whitespace head. -/
theorem skipWs_not_ws (c : Char) (l : List Char) (h : isWsChar c = false) :
    skipWs (c :: l) = c :: l := by
  simp only [skipWs, h, Bool.false_eq_true, if_false]

/-- The newline-indent run is all whitespace. -/
theorem wsAll_nlIndent (lvl : Nat) : wsAll (nlIndent lvl) = true := by
  simp only [nlIndent, wsAll, List.all_cons, Bool.and_eq_true]
  constructor
  · rfl
  · induction (2 * lvl) with
    | zero => rfl
    | succ n ih =>
      simp only [List.replicate_succ, List.all_cons, Bool.and_eq_true]
      exact ⟨rfl, ih⟩

/-- `hexVal` inverts `hexDig` on digit values. -/
theorem hexVal_hexDig : ∀ d, d < 16 → hexVal (hexDig d) = some d := by
  decide

/-- The four digits of `hex4` are in range. -/
theorem hex4_digits_lt (n : Nat) :
    n / 4096 % 16 < 16 ∧ n / 256 % 16 < 16 ∧ n / 16 % 16 < 16 ∧ n % 16 < 16 := by
  omega

/-- Reassembling the four hex digits of `n < 0x10000` recovers `n`. -/
theorem hex4_reassemble (n : Nat) (h : n < 0x10000) :
    ((n / 4096 % 16 * 16 + n / 256 % 16) * 16 + n / 16 % 16) * 16 + n % 16 = n := by
  omega

/-- `natToDigits` produces at least one character. -/
theorem natToDigits_ne_nil (n : Nat) : natToDigits n ≠ [] := by
  rw [natToDigits]
  split
  · simp
  · simp

/-- `natToDigits` produces only decimal digits. -/
theorem natToDigits_all_digits (n : Nat) : ∀ c ∈ natToDigits n, isDigitCh c = true := by
  induction n using Nat.strong_induction_on with
  | _ n ih =>
    rw [natToDigits]
    split
    · rename_i h
      intro c hc
      simp only [List.mem_singleton] at hc
      subst hc
      simp only [isDigitCh, decide_eq_true_eq]
      rw [toNat_ofNat_valid (48 + n) (Or.inl (by omega))]
      omega
    · rename_i h
      intro c hc
      simp only [List.mem_append, List.mem_singleton] at hc
      rcases hc with hc | hc
      · exact ih (n / 10) (Nat.div_lt_self (by omega) (by omega)) c hc
      · subst hc
        simp only [isDigitCh, decide_eq_true_eq]
        rw [toNat_ofNat_valid (48 + n % 10) (Or.inl (by omega))]
        omega

/-- The continuation after a serialized number never extends the number: its
head is not a digit, a decimal point or an exponent marker. -/
def numSafeB : List Char → Bool
  | [] => true
  | c :: _ => !isDigitCh c && !(c = '.' : Bool) && !(c = 'e' : Bool) && !(c = 'E' : Bool)

/-- `spanDigits` splits a digit run from a digit-free continuation. -/
theorem spanDigits_append (ds rest : List Char)
    (hds : ∀ c ∈ ds, isDigitCh c = true)
    (hrest : ∀ c l, rest = c :: l → isDigitCh c = false) :
    spanDigits (ds ++ rest) = (ds, rest) := by
  induction ds with
  | nil =>
    cases rest with
    | nil => rfl
    | cons c l =>
      simp only [List.nil_append, spanDigits, hrest c l rfl, Bool.false_eq_true, if_false]
  | cons c cs ih =>
    simp only [List.cons_append, spanDigits, hds c (by simp), if_true, if_pos,
      List.append_eq]
    rw [ih (fun d hd => hds d (by simp [hd]))]

/-- Folding the digit characters of `n` onto accumulator `a`. -/
theorem foldl_natToDigits (n : Nat) : ∀ a : Nat,
    List.foldl (fun a c => a * 10 + (c.toNat - 48)) a (natToDigits n) =
      a * 10 ^ (natToDigits n).length + n := by
  induction n using Nat.strong_induction_on with
  | _ n ih =>
    intro a
    rw [natToDigits]
    split
    · rename_i h
      simp only [List.foldl_cons, List.foldl_nil, List.length_singleton]
      rw [toNat_ofNat_valid (48 + n) (Or.inl (by omega))]
      omega
    · rename_i h
      rw [List.foldl_append, ih (n / 10) (Nat.div_lt_self (by omega) (by omega)) a]
      simp only [List.foldl_cons, List.foldl_nil, List.length_append,
        List.length_singleton]
      rw [toNat_ofNat_valid (48 + n % 10) (Or.inl (by omega))]
      rw [pow_succ]
      have hmul : a * (10 ^ (natToDigits (n / 10)).length * 10) =
          a * 10 ^ (natToDigits (n / 10)).length * 10 := by ring
      rw [hmul]
      generalize a * 10 ^ (natToDigits (n / 10)).length = p
      omega

/-- Reading back the decimal digits of `n` yields `n`. -/
theorem digitsToNat_natToDigits (n : Nat) : digitsToNat (natToDigits n) = n := by
  unfold digitsToNat
  rw [foldl_natToDigits n 0]
  simp

/-- `parseNatNum` inverts the decimal rendering, leaving the continuation. -/
theorem parseNatNum_round (n : Nat) (rest : List Char) (h : numSafeB rest = true) :
    parseNatNum (natToDigits n ++ rest) = some (n, rest) := by
  unfold parseNatNum
  have hspan := spanDigits_append (natToDigits n) rest (natToDigits_all_digits n)
    (by
      intro c l hl
      subst hl
      simp only [numSafeB, Bool.and_eq_true, Bool.not_eq_true'] at h
      exact h.1.1.1)
  rw [hspan]
  obtain ⟨d, ds', hd⟩ := List.exists_cons_of_ne_nil (natToDigits_ne_nil n)
  rw [hd]
  cases rest with
  | nil =>
    simp only []
    rw [← hd, digitsToNat_natToDigits]
  | cons c l =>
    simp only [numSafeB, Bool.and_eq_true, Bool.not_eq_true'] at h
    have hcond : ¬(c = '.' ∨ c = 'e' ∨ c = 'E') := by
      simp only [decide_eq_false_iff_not] at h
      tauto
    simp only [if_neg hcond]
    rw [← hd, digitsToNat_natToDigits]

/-- `parseHex4` inverts `hex4` below `0x10000`. -/
theorem parseHex4_hex4 (n : Nat) (hn : n < 0x10000) (rest : List Char) :
    parseHex4 (hex4 n ++ rest) = some (n, rest) := by
  have e1 : hexVal (hexDig (n / 4096 % 16)) = some (n / 4096 % 16) :=
    hexVal_hexDig _ (by omega)
  have e2 : hexVal (hexDig (n / 256 % 16)) = some (n / 256 % 16) :=
    hexVal_hexDig _ (by omega)
  have e3 : hexVal (hexDig (n / 16 % 16)) = some (n / 16 % 16) :=
    hexVal_hexDig _ (by omega)
  have e4 : hexVal (hexDig (n % 16)) = some (n % 16) :=
    hexVal_hexDig _ (by omega)
  simp only [hex4, List.cons_append, List.nil_append]
  rw [show ∀ (h1 h2 h3 h4 : Char) (r : List Char),
      parseHex4 (h1 :: h2 :: h3 :: h4 :: r) =
        (hexVal h1).bind (fun a => (hexVal h2).bind (fun b => (hexVal h3).bind (fun c =>
          (hexVal h4).map (fun d => (((a * 16 + b) * 16 + c) * 16 + d, r)))))
      from fun _ _ _ _ _ => rfl]
  rw [e1, e2, e3, e4]
  simp [hex4_reassemble n hn]

/-- `decodeU` on a non-surrogate BMP escape. -/
theorem decodeU_bmp (n : Nat) (hn : n < 0x10000) (hs : n < 0xd800 ∨ 0xe000 ≤ n)
    (rest : List Char) : decodeU (hex4 n ++ rest) = some (Char.ofNat n, rest) := by
  have h1 : ¬(0xd800 ≤ n ∧ n ≤ 0xdbff) := by omega
  have h2 : ¬(0xdc00 ≤ n ∧ n ≤ 0xdfff) := by omega
  unfold decodeU
  rw [parseHex4_hex4 n hn rest]
  rw [Option.some_bind]
  rw [if_neg h1, if_neg h2]

/-- `decodeU` on a surrogate-pair escape of an astral code point. -/
theorem decodeU_astral (n : Nat) (h1 : 0x10000 ≤ n) (h2 : n < 0x110000)
    (rest : List Char) :
    decodeU (hex4 (0xd800 + (n - 0x10000) / 0x400) ++
      ('\\' :: 'u' :: (hex4 (0xdc00 + (n - 0x10000) % 0x400) ++ rest))) =
      some (Char.ofNat n, rest) := by
  have hhi : 0xd800 + (n - 0x10000) / 0x400 < 0x10000 := by omega
  have hlo : 0xdc00 + (n - 0x10000) % 0x400 < 0x10000 := by omega
  have hs1 : 0xd800 ≤ 0xd800 + (n - 0x10000) / 0x400 ∧
      0xd800 + (n - 0x10000) / 0x400 ≤ 0xdbff := by omega
  have hs2 : 0xdc00 ≤ 0xdc00 + (n - 0x10000) % 0x400 ∧
      0xdc00 + (n - 0x10000) % 0x400 ≤ 0xdfff := by omega
  have harg : 0x10000 + (0xd800 + (n - 0x10000) / 0x400 - 0xd800) * 0x400 +
      (0xdc00 + (n - 0x10000) % 0x400 - 0xdc00) = n := by omega
  unfold decodeU
  rw [parseHex4_hex4 _ hhi]
  rw [Option.some_bind]
  rw [if_pos hs1]
  split
  · rename_i e2 u2 rest2 heq
    have heq2 : '\\' :: 'u' :: (hex4 (0xdc00 + (n - 0x10000) % 0x400) ++ rest) =
        e2 :: u2 :: rest2 := heq
    cases heq2
    rw [if_pos (And.intro rfl rfl)]
    rw [parseHex4_hex4 _ hlo]
    rw [Option.some_bind]
    rw [if_pos hs2, harg]
  · rename_i hne
    exact absurd rfl (hne '\\' 'u' (hex4 (0xdc00 + (n - 0x10000) % 0x400) ++ rest))

/-- `decodeEscape` on the escape letters. -/
theorem decodeEscape_qMark (cs : List Char) : decodeEscape (qMark :: cs) = some (qMark, cs) := by
  simp only [decodeEscape]
  rw [if_pos trivial]

/-- `decodeEscape` on a backslash escape. -/
theorem decodeEscape_bs (cs : List Char) : decodeEscape ('\\' :: cs) = some ('\\', cs) := by
  simp only [decodeEscape]
  rw [if_neg (show ¬(('\\' : Char) = qMark) by decide), if_pos trivial]

/-- `decodeEscape` on `\b`. -/
theorem decodeEscape_b (cs : List Char) : decodeEscape ('b' :: cs) = some ('\x08', cs) := by
  simp only [decodeEscape]
  rw [if_neg (show ¬(('b' : Char) = qMark) by decide), if_neg (show ¬(('b' : Char) = '\\') by decide), if_neg (show ¬(('b' : Char) = '/') by decide), if_pos trivial]

/-- `decodeEscape` on `\f`. -/
theorem decodeEscape_f (cs : List Char) : decodeEscape ('f' :: cs) = some ('\x0c', cs) := by
  simp only [decodeEscape]
  rw [if_neg (show ¬(('f' : Char) = qMark) by decide), if_neg (show ¬(('f' : Char) = '\\') by decide), if_neg (show ¬(('f' : Char) = '/') by decide), if_neg (show ¬(('f' : Char) = 'b') by decide), if_pos trivial]

/-- `decodeEscape` on `\n`. -/
theorem decodeEscape_n (cs : List Char) : decodeEscape ('n' :: cs) = some ('\n', cs) := by
  simp only [decodeEscape]
  rw [if_neg (show ¬(('n' : Char) = qMark) by decide), if_neg (show ¬(('n' : Char) = '\\') by decide), if_neg (show ¬(('n' : Char) = '/') by decide), if_neg (show ¬(('n' : Char) = 'b') by decide), if_neg (show ¬(('n' : Char) = 'f') by decide), if_pos trivial]

/-- `decodeEscape` on `\r`. -/
theorem decodeEscape_r (cs : List Char) : decodeEscape ('r' :: cs) = some ('\r', cs) := by
  simp only [decodeEscape]
  rw [if_neg (show ¬(('r' : Char) = qMark) by decide), if_neg (show ¬(('r' : Char) = '\\') by decide), if_neg (show ¬(('r' : Char) = '/') by decide), if_neg (show ¬(('r' : Char) = 'b') by decide), if_neg (show ¬(('r' : Char) = 'f') by decide), if_neg (show ¬(('r' : Char) = 'n') by decide), if_pos trivial]

/-- `decodeEscape` on `\t`. -/
theorem decodeEscape_t (cs : List Char) : decodeEscape ('t' :: cs) = some ('\t', cs) := by
  simp only [decodeEscape]
  rw [if_neg (show ¬(('t' : Char) = qMark) by decide), if_neg (show ¬(('t' : Char) = '\\') by decide), if_neg (show ¬(('t' : Char) = '/') by decide), if_neg (show ¬(('t' : Char) = 'b') by decide), if_neg (show ¬(('t' : Char) = 'f') by decide), if_neg (show ¬(('t' : Char) = 'n') by decide), if_neg (show ¬(('t' : Char) = 'r') by decide), if_pos trivial]

/-- `decodeEscape` hands `\u` escapes to `decodeU`. -/
theorem decodeEscape_u (cs : List Char) : decodeEscape ('u' :: cs) = decodeU cs := by
  simp only [decodeEscape]
  rw [if_neg (show ¬(('u' : Char) = qMark) by decide), if_neg (show ¬(('u' : Char) = '\\') by decide), if_neg (show ¬(('u' : Char) = '/') by decide), if_neg (show ¬(('u' : Char) = 'b') by decide), if_neg (show ¬(('u' : Char) = 'f') by decide), if_neg (show ¬(('u' : Char) = 'n') by decide), if_neg (show ¬(('u' : Char) = 'r') by decide), if_neg (show ¬(('u' : Char) = 't') by decide), if_pos trivial]

/-- `parseStringBody` at a closing quote. -/
theorem psb_quote (fuel : Nat) (cs : List Char) :
    parseStringBody (fuel + 1) (qMark :: cs) = some ([], cs) := by
  rw [parseStringBody]
  simp

/-- `parseStringBody` at an escape whose decoding is known. -/
theorem psb_esc (fuel : Nat) (cs : List Char) (d : Char) (cs2 : List Char)
    (h : decodeEscape cs = some (d, cs2)) :
    parseStringBody (fuel + 1) ('\\' :: cs) =
      (parseStringBody fuel cs2).map (fun p => (d :: p.1, p.2)) := by
  rw [parseStringBody]
  simp only [h, if_neg (show ¬(('\\' : Char) = qMark) by decide)]
  rw [if_pos trivial]

/-- `parseStringBody` at a literal (non-quote, non-escape, non-control)
character. -/
theorem psb_lit (fuel : Nat) (c : Char) (cs : List Char) (h1 : ¬c = qMark)
    (h2 : ¬c = '\\') (h3 : ¬c.toNat < 0x20) :
    parseStringBody (fuel + 1) (c :: cs) =
      (parseStringBody fuel cs).map (fun p => (c :: p.1, p.2)) := by
  rw [parseStringBody]
  simp [h1, h2, h3]

/-- Round trip of JSON string bodies: parsing the encoding of `s` recovers
`s` and the continuation after the closing quote, for any fuel above the
number of decoded characters. -/
theorem parseStringBody_round (s : List Char) : ∀ fuel rest, s.length < fuel →
    parseStringBody fuel (encChars s ++ (qMark :: rest)) = some (s, rest) := by
  induction s with
  | nil =>
    intro fuel rest hf
    obtain ⟨f, rfl⟩ : ∃ f, fuel = f + 1 := ⟨fuel - 1, by omega⟩
    simp only [encChars, List.nil_append]
    exact psb_quote f rest
  | cons c cs ih =>
    intro fuel rest hf
    obtain ⟨f, rfl⟩ : ∃ f, fuel = f + 1 := ⟨fuel - 1, by omega⟩
    have hf' : cs.length < f := by
      simp only [List.length_cons] at hf
      omega
    have ihr := ih f rest hf'
    simp only [encChars, List.append_assoc]
    by_cases h1 : c = qMark
    · rw [encodeChar, if_pos h1]
      simp only [List.cons_append, List.nil_append]
      rw [psb_esc f _ qMark _ (decodeEscape_qMark _), ihr]
      simp [h1]
    · by_cases h2 : c = '\\'
      · rw [encodeChar, if_neg h1, if_pos h2]
        simp only [List.cons_append, List.nil_append]
        rw [psb_esc f _ '\\' _ (decodeEscape_bs _), ihr]
        simp [h2]
      · by_cases h3 : c = '\x08'
        · rw [encodeChar, if_neg h1, if_neg h2, if_pos h3]
          simp only [List.cons_append, List.nil_append]
          rw [psb_esc f _ '\x08' _ (decodeEscape_b _), ihr]
          simp [h3]
        · by_cases h4 : c = '\x0c'
          · rw [encodeChar, if_neg h1, if_neg h2, if_neg h3, if_pos h4]
            simp only [List.cons_append, List.nil_append]
            rw [psb_esc f _ '\x0c' _ (decodeEscape_f _), ihr]
            simp [h4]
          · by_cases h5 : c = '\n'
            · rw [encodeChar, if_neg h1, if_neg h2, if_neg h3, if_neg h4, if_pos h5]
              simp only [List.cons_append, List.nil_append]
              rw [psb_esc f _ '\n' _ (decodeEscape_n _), ihr]
              simp [h5]
            · by_cases h6 : c = '\r'
              · rw [encodeChar, if_neg h1, if_neg h2, if_neg h3, if_neg h4, if_neg h5,
                  if_pos h6]
                simp only [List.cons_append, List.nil_append]
                rw [psb_esc f _ '\r' _ (decodeEscape_r _), ihr]
                simp [h6]
              · by_cases h7 : c = '\t'
                · rw [encodeChar, if_neg h1, if_neg h2, if_neg h3, if_neg h4, if_neg h5,
                    if_neg h6, if_pos h7]
                  simp only [List.cons_append, List.nil_append]
                  rw [psb_esc f _ '\t' _ (decodeEscape_t _), ihr]
                  simp [h7]
                · by_cases h8 : c.toNat < 0x20
                  · rw [encodeChar, if_neg h1, if_neg h2, if_neg h3, if_neg h4, if_neg h5,
                      if_neg h6, if_neg h7, if_pos h8]
                    simp only [List.cons_append]
                    rw [psb_esc f _ (Char.ofNat c.toNat) _ ?hdec, ihr]
                    · simp [ofNat_toNat_self]
                    case hdec =>
                      rw [decodeEscape_u]
                      exact decodeU_bmp c.toNat (by omega) (by omega) _
                  · by_cases h9 : c.toNat ≤ 0x7e
                    · rw [encodeChar, if_neg h1, if_neg h2, if_neg h3, if_neg h4,
                        if_neg h5, if_neg h6, if_neg h7, if_neg h8, if_pos h9]
                      simp only [List.cons_append, List.nil_append]
                      rw [psb_lit f c _ h1 h2 h8, ihr]
                      simp
                    · by_cases h10 : c.toNat < 0x10000
                      · rw [encodeChar, if_neg h1, if_neg h2, if_neg h3, if_neg h4,
                          if_neg h5, if_neg h6, if_neg h7, if_neg h8, if_neg h9,
                          if_pos h10]
                        simp only [List.cons_append]
                        rw [psb_esc f _ (Char.ofNat c.toNat) _ ?hdec2, ihr]
                        · simp [ofNat_toNat_self]
                        case hdec2 =>
                          rw [decodeEscape_u]
                          refine decodeU_bmp c.toNat h10 ?_ _
                          rcases char_not_surrogate c with h | h
                          · exact Or.inl h
                          · exact Or.inr h
                      · rw [encodeChar, if_neg h1, if_neg h2, if_neg h3, if_neg h4,
                          if_neg h5, if_neg h6, if_neg h7, if_neg h8, if_neg h9,
                          if_neg h10]
                        simp only [List.cons_append, List.append_assoc]
                        rw [psb_esc f _ (Char.ofNat c.toNat) _ ?hdec3, ihr]
                        · simp [ofNat_toNat_self]
                        case hdec3 =>
                          rw [decodeEscape_u]
                          exact decodeU_astral c.toNat (by omega) (char_lt c) _

mutual
/-- Node count of a JSON value; `jsize v` fuel suffices to parse `dumpsVal`
output. -/
def jsize : JsonValue → Nat
  | .null => 1
  | .bool _ => 1
  | .num _ => 1
  | .str _ => 1
  | .arr xs => 1 + jsizeA xs
  | .obj ms => 1 + jsizeO ms

/-- Node count of an item list. -/
def jsizeA : JsonArr → Nat
  | .nil => 0
  | .cons x xs => 1 + jsize x + jsizeA xs

/-- Node count of a member list. -/
def jsizeO : JsonObj → Nat
  | .nil => 0
  | .cons _ v ms => 1 + jsize v + jsizeO ms
end

/-- Key lookup (Python `key in dict`). -/
def hasKeyO : JsonObj → String → Bool
  | .nil, _ => false
  | .cons k _ tl, key => (k = key : Bool) || hasKeyO tl key

mutual
/-- Well-formedness: every object in the value has pairwise-distinct keys —
exactly the values that arise from Python dicts. -/
def wfV : JsonValue → Bool
  | .arr xs => wfA xs
  | .obj ms => wfO ms
  | _ => true

/-- Well-formedness of every array element. -/
def wfA : JsonArr → Bool
  | .nil => true
  | .cons x xs => wfV x && wfA xs

/-- Well-formedness of a member list: head key absent from the tail. -/
def wfO : JsonObj → Bool
  | .nil => true
  | .cons k v tl => !hasKeyO tl k && wfV v && wfO tl
end

/-- Object concatenation. -/
def appendObj : JsonObj → JsonObj → JsonObj
  | .nil, ms => ms
  | .cons k v tl, ms => .cons k v (appendObj tl ms)

/-- Inserting an absent key appends the pair. -/
theorem insertKey_not_mem : ∀ (acc : JsonObj) (k : String) (v : JsonValue),
    hasKeyO acc k = false → insertKey acc k v = appendObj acc (.cons k v .nil)
  | .nil, _, _, _ => rfl
  | .cons k' v' tl, k, v, h => by
    have h' : ¬(k' = k) ∧ hasKeyO tl k = false := by
      simp only [hasKeyO, Bool.or_eq_false_iff, decide_eq_false_iff_not] at h
      exact h
    simp only [insertKey, appendObj, if_neg h'.1]
    rw [insertKey_not_mem tl k v h'.2]

/-- Splicing a singleton before further members. -/
theorem appendObj_single : ∀ (acc : JsonObj) (k : String) (v : JsonValue) (ms : JsonObj),
    appendObj (appendObj acc (.cons k v .nil)) ms = appendObj acc (.cons k v ms)
  | .nil, _, _, _ => rfl
  | .cons k' v' tl, k, v, ms => by
    simp only [appendObj]
    rw [appendObj_single tl k v ms]

/-- Keys of an object concatenation. -/
theorem hasKeyO_append : ∀ (a b : JsonObj) (key : String),
    hasKeyO (appendObj a b) key = (hasKeyO a key || hasKeyO b key)
  | .nil, _, _ => by simp [appendObj, hasKeyO]
  | .cons k' v' tl, b, key => by
    simp only [appendObj, hasKeyO]
    rw [hasKeyO_append tl b key]
    simp [Bool.or_assoc]

/-- Keys of an insertion with an absent key. -/
theorem hasKeyO_insert (acc : JsonObj) (k : String) (v : JsonValue) (key : String)
    (h : hasKeyO acc k = false) :
    hasKeyO (insertKey acc k v) key = (hasKeyO acc key || (k = key : Bool)) := by
  rw [insertKey_not_mem acc k v h, hasKeyO_append]
  simp [hasKeyO]

/-- Character equality through code points. -/
theorem char_eq_iff (a b : Char) : a = b ↔ a.toNat = b.toNat := by
  constructor
  · intro h
    rw [h]
  · intro h
    have := ofNat_toNat_self a
    rw [h, ofNat_toNat_self b] at this
    exact this.symm

/-- Encoding is at least one character per source character. -/
theorem encChars_length (s : List Char) : s.length ≤ (encChars s).length := by
  induction s with
  | nil => simp [encChars]
  | cons c cs ih =>
    have hc : 1 ≤ (encodeChar c).length := by
      rw [encodeChar]
      repeat' split
      all_goals simp
    simp only [encChars, List.length_append, List.length_cons]
    omega

/-- A digit character is neither whitespace nor any JSON structural
character. -/
theorem digit_head_facts (c : Char) (h : isDigitCh c = true) :
    isWsChar c = false ∧ ¬c = 'n' ∧ ¬c = 't' ∧ ¬c = 'f' ∧ ¬c = qMark ∧
      ¬c = '[' ∧ ¬c = '\x7b' ∧ ¬c = '-' ∧ ¬c = ']' := by
  simp only [isDigitCh, decide_eq_true_eq] at h
  have e1 : Char.toNat 'n' = 110 := rfl
  have e2 : Char.toNat 't' = 116 := rfl
  have e3 : Char.toNat 'f' = 102 := rfl
  have e4 : Char.toNat qMark = 34 := rfl
  have e5 : Char.toNat '[' = 91 := rfl
  have e6 : Char.toNat '\x7b' = 123 := rfl
  have e7 : Char.toNat '-' = 45 := rfl
  have e8 : Char.toNat ']' = 93 := rfl
  refine ⟨?_, ?_, ?_, ?_, ?_, ?_, ?_, ?_, ?_⟩
  · simp only [isWsChar, Bool.or_eq_false_iff, decide_eq_false_iff_not]
    omega
  · rw [char_eq_iff, e1]; omega
  · rw [char_eq_iff, e2]; omega
  · rw [char_eq_iff, e3]; omega
  · rw [char_eq_iff, e4]; omega
  · rw [char_eq_iff, e5]; omega
  · rw [char_eq_iff, e6]; omega
  · rw [char_eq_iff, e7]; omega
  · rw [char_eq_iff, e8]; omega

/-- `dumpsVal` output starts with a non-whitespace character that is not a
closing bracket. -/
theorem dumpsVal_head (lvl : Nat) (v : JsonValue) :
    ∃ c cs, dumpsVal lvl v = c :: cs ∧ isWsChar c = false ∧ ¬c = ']' := by
  cases v with
  | null => exact ⟨'n', ['u', 'l', 'l'], rfl, by decide, by decide⟩
  | bool b =>
    cases b with
    | true => exact ⟨'t', ['r', 'u', 'e'], rfl, by decide, by decide⟩
    | false => exact ⟨'f', ['a', 'l', 's', 'e'], rfl, by decide, by decide⟩
  | num n =>
    cases n with
    | ofNat m =>
      obtain ⟨d, ds, hd⟩ := List.exists_cons_of_ne_nil (natToDigits_ne_nil m)
      have hdig : isDigitCh d = true := natToDigits_all_digits m d (by rw [hd]; simp)
      have hf := digit_head_facts d hdig
      exact ⟨d, ds, by simp [dumpsVal, intRepr, hd], hf.1, hf.2.2.2.2.2.2.2.2⟩
    | negSucc m =>
      exact ⟨'-', natToDigits (m + 1), rfl, by decide, by decide⟩
  | str s => exact ⟨qMark, encChars s.data ++ [qMark], rfl, by decide, by decide⟩
  | arr xs =>
    cases xs with
    | nil => exact ⟨'[', [']'], rfl, by decide, by decide⟩
    | cons x tl =>
      exact ⟨'[', nlIndent (lvl + 1) ++ dumpsVal (lvl + 1) x ++ dumpsItems (lvl + 1) tl ++
        (nlIndent lvl ++ [']']), rfl, by decide, by decide⟩
  | obj ms =>
    cases ms with
    | nil => exact ⟨'\x7b', ['\x7d'], rfl, by decide, by decide⟩
    | cons k v tl =>
      exact ⟨'\x7b', nlIndent (lvl + 1) ++ encodeString k ++ ':' :: ' ' ::
        dumpsVal (lvl + 1) v ++ dumpsMembers (lvl + 1) tl ++ (nlIndent lvl ++ ['\x7d']),
        rfl, by decide, by decide⟩

mutual
/-- The serialized form is at least as long as the node count. -/
theorem jsize_le_dumps : ∀ (lvl : Nat) (v : JsonValue), jsize v ≤ (dumpsVal lvl v).length
  | _, .null => by simp [dumpsVal, jsize]
  | _, .bool true => by simp [dumpsVal, jsize]
  | _, .bool false => by simp [dumpsVal, jsize]
  | _, .num (.ofNat m) => by
    simp only [dumpsVal, jsize, intRepr]
    have h0 : 0 < (natToDigits m).length := List.length_pos.mpr (natToDigits_ne_nil m)
    omega
  | _, .num (.negSucc m) => by simp [dumpsVal, jsize, intRepr]
  | _, .str s => by simp [dumpsVal, jsize, encodeString]
  | _, .arr .nil => by simp [dumpsVal, jsize, jsizeA]
  | lvl, .arr (.cons x xs) => by
    have h1 := jsize_le_dumps (lvl + 1) x
    have h2 := jsizeA_le_items (lvl + 1) xs
    simp only [dumpsVal, jsize, jsizeA, List.length_cons, List.length_append, nlIndent,
      List.length_replicate]
    omega
  | _, .obj .nil => by simp [dumpsVal, jsize, jsizeO]
  | lvl, .obj (.cons k v ms) => by
    have h1 := jsize_le_dumps (lvl + 1) v
    have h2 := jsizeO_le_members (lvl + 1) ms
    simp only [dumpsVal, jsize, jsizeO, List.length_cons, List.length_append, nlIndent,
      List.length_replicate, encodeString]
    omega

/-- Item serializations are at least as long as their node count. -/
theorem jsizeA_le_items : ∀ (lvl : Nat) (xs : JsonArr),
    jsizeA xs ≤ (dumpsItems lvl xs).length
  | _, .nil => by simp [dumpsItems, jsizeA]
  | lvl, .cons x xs => by
    have h1 := jsize_le_dumps lvl x
    have h2 := jsizeA_le_items lvl xs
    simp only [dumpsItems, jsizeA, List.length_cons, List.length_append, nlIndent,
      List.length_replicate]
    omega

/-- Member serializations are at least as long as their node count. -/
theorem jsizeO_le_members : ∀ (lvl : Nat) (ms : JsonObj),
    jsizeO ms ≤ (dumpsMembers lvl ms).length
  | _, .nil => by simp [dumpsMembers, jsizeO]
  | lvl, .cons k v ms => by
    have h1 := jsize_le_dumps lvl v
    have h2 := jsizeO_le_members lvl ms
    simp only [dumpsMembers, jsizeO, List.length_cons, List.length_append, nlIndent,
      List.length_replicate, encodeString]
    omega
end

/-- `parseValue` on a `null` literal. -/
theorem pv_null (fuel : Nat) (input rest : List Char)
    (h : skipWs input = 'n' :: 'u' :: 'l' :: 'l' :: rest) :
    parseValue (fuel + 1) input = some (.null, rest) := by
  rw [parseValue, h]
  simp

/-- `parseValue` on a `true` literal. -/
theorem pv_true (fuel : Nat) (input rest : List Char)
    (h : skipWs input = 't' :: 'r' :: 'u' :: 'e' :: rest) :
    parseValue (fuel + 1) input = some (.bool true, rest) := by
  rw [parseValue, h]
  simp

/-- `parseValue` on a `false` literal. -/
theorem pv_false (fuel : Nat) (input rest : List Char)
    (h : skipWs input = 'f' :: 'a' :: 'l' :: 's' :: 'e' :: rest) :
    parseValue (fuel + 1) input = some (.bool false, rest) := by
  rw [parseValue, h]
  simp

/-- `parseValue` on a string literal. -/
theorem pv_str (fuel : Nat) (input body : List Char)
    (h : skipWs input = qMark :: body) :
    parseValue (fuel + 1) input =
      (parseStringBody body.length body).map (fun p => (.str ⟨p.1⟩, p.2)) := by
  rw [parseValue, h]
  simp only [if_neg (show ¬(qMark = 'n') by decide), if_neg (show ¬(qMark = 't') by decide),
    if_neg (show ¬(qMark = 'f') by decide)]
  rw [if_pos trivial]

/-- `parseValue` on an unsigned number. -/
theorem pv_num (fuel : Nat) (input : List Char) (c : Char) (cs : List Char)
    (h : skipWs input = c :: cs) (hc : isDigitCh c = true) :
    parseValue (fuel + 1) input =
      (parseNatNum (c :: cs)).map (fun p => (.num (p.1 : Int), p.2)) := by
  have hf := digit_head_facts c hc
  rw [parseValue, h]
  simp only [if_neg hf.2.1, if_neg hf.2.2.1, if_neg hf.2.2.2.1, if_neg hf.2.2.2.2.1,
    if_neg hf.2.2.2.2.2.1, if_neg hf.2.2.2.2.2.2.1, if_neg hf.2.2.2.2.2.2.2.1, hc]
  rw [if_pos trivial]

/-- `parseValue` on a negative number. -/
theorem pv_neg (fuel : Nat) (input : List Char) (cs : List Char)
    (h : skipWs input = '-' :: cs) :
    parseValue (fuel + 1) input =
      (parseNatNum cs).map (fun p => (.num (-(p.1 : Int)), p.2)) := by
  rw [parseValue, h]
  simp only [if_neg (show ¬(('-' : Char) = 'n') by decide),
    if_neg (show ¬(('-' : Char) = 't') by decide),
    if_neg (show ¬(('-' : Char) = 'f') by decide),
    if_neg (show ¬(('-' : Char) = qMark) by decide),
    if_neg (show ¬(('-' : Char) = '[') by decide),
    if_neg (show ¬(('-' : Char) = '\x7b') by decide)]
  rw [if_pos trivial]

/-- `parseValue` on an array opener. -/
theorem pv_arr (fuel : Nat) (input rest0 : List Char)
    (h : skipWs input = '[' :: rest0) :
    parseValue (fuel + 1) input =
      (match skipWs rest0 with
       | ']' :: r => some (.arr .nil, r)
       | rest1 => (parseItems fuel rest1).map (fun p => (.arr p.1, p.2))) := by
  rw [parseValue, h]
  simp only [if_neg (show ¬(('[' : Char) = 'n') by decide),
    if_neg (show ¬(('[' : Char) = 't') by decide),
    if_neg (show ¬(('[' : Char) = 'f') by decide),
    if_neg (show ¬(('[' : Char) = qMark) by decide)]
  rw [if_pos trivial]

/-- `parseValue` on an object opener. -/
theorem pv_obj (fuel : Nat) (input rest0 : List Char)
    (h : skipWs input = '\x7b' :: rest0) :
    parseValue (fuel + 1) input =
      (match skipWs rest0 with
       | '\x7d' :: r => some (.obj .nil, r)
       | rest1 => (parseMembers fuel .nil rest1).map (fun p => (.obj p.1, p.2))) := by
  rw [parseValue, h]
  simp only [if_neg (show ¬(('\x7b' : Char) = 'n') by decide),
    if_neg (show ¬(('\x7b' : Char) = 't') by decide),
    if_neg (show ¬(('\x7b' : Char) = 'f') by decide),
    if_neg (show ¬(('\x7b' : Char) = qMark) by decide),
    if_neg (show ¬(('\x7b' : Char) = '[') by decide)]
  rw [if_pos trivial]

/-- One unfolding of `parseItems` when the leading value parse is known. -/
theorem pi_step (fuel : Nat) (input : List Char) (v : JsonValue) (tail : List Char)
    (h : parseValue fuel input = some (v, tail)) :
    parseItems (fuel + 1) input =
      (match skipWs tail with
       | ',' :: r =>
         (match parseItems fuel r with
          | some (xs, r2) => some (.cons v xs, r2)
          | none => none)
       | ']' :: r => some (.cons v .nil, r)
       | _ => none) := by
  rw [parseItems, h]

mutual
/-- Round trip: parsing the serialization of a well-formed value, after any
leading whitespace and before any number-safe continuation, recovers the
value exactly. -/
theorem rt_val : ∀ (v : JsonValue) (fuel lvl : Nat) (ws rest : List Char),
    wsAll ws = true → wfV v = true → jsize v ≤ fuel → numSafeB rest = true →
    parseValue fuel (ws ++ (dumpsVal lvl v ++ rest)) = some (v, rest)
  | .null, fuel, lvl, ws, rest, hws, _, hsz, _ => by
    obtain ⟨f, rfl⟩ : ∃ f, fuel = f + 1 := ⟨fuel - 1, by simp [jsize] at hsz; omega⟩
    refine pv_null f _ rest ?_
    rw [skipWs_ws_append _ _ hws]
    simp only [dumpsVal, List.cons_append]
    exact skipWs_not_ws _ _ (by decide)
  | .bool true, fuel, lvl, ws, rest, hws, _, hsz, _ => by
    obtain ⟨f, rfl⟩ : ∃ f, fuel = f + 1 := ⟨fuel - 1, by simp [jsize] at hsz; omega⟩
    refine pv_true f _ rest ?_
    rw [skipWs_ws_append _ _ hws]
    simp only [dumpsVal, List.cons_append]
    exact skipWs_not_ws _ _ (by decide)
  | .bool false, fuel, lvl, ws, rest, hws, _, hsz, _ => by
    obtain ⟨f, rfl⟩ : ∃ f, fuel = f + 1 := ⟨fuel - 1, by simp [jsize] at hsz; omega⟩
    refine pv_false f _ rest ?_
    rw [skipWs_ws_append _ _ hws]
    simp only [dumpsVal, List.cons_append]
    exact skipWs_not_ws _ _ (by decide)
  | .num (.ofNat m), fuel, lvl, ws, rest, hws, _, hsz, hnum => by
    obtain ⟨f, rfl⟩ : ∃ f, fuel = f + 1 := ⟨fuel - 1, by simp [jsize] at hsz; omega⟩
    obtain ⟨d, ds, hd⟩ := List.exists_cons_of_ne_nil (natToDigits_ne_nil m)
    have hdig : isDigitCh d = true := natToDigits_all_digits m d (by rw [hd]; simp)
    have hskip : skipWs (ws ++ (dumpsVal lvl (.num (.ofNat m)) ++ rest)) =
        d :: (ds ++ rest) := by
      rw [skipWs_ws_append _ _ hws]
      simp only [dumpsVal, intRepr, hd, List.cons_append]
      exact skipWs_not_ws _ _ (digit_head_facts d hdig).1
    rw [pv_num f _ d (ds ++ rest) hskip hdig]
    have hjoin : d :: (ds ++ rest) = natToDigits m ++ rest := by
      rw [hd]
      simp
    rw [hjoin, parseNatNum_round m rest hnum]
    rfl
  | .num (.negSucc m), fuel, lvl, ws, rest, hws, _, hsz, hnum => by
    obtain ⟨f, rfl⟩ : ∃ f, fuel = f + 1 := ⟨fuel - 1, by simp [jsize] at hsz; omega⟩
    have hskip : skipWs (ws ++ (dumpsVal lvl (.num (.negSucc m)) ++ rest)) =
        '-' :: (natToDigits (m + 1) ++ rest) := by
      rw [skipWs_ws_append _ _ hws]
      simp only [dumpsVal, intRepr, List.cons_append]
      exact skipWs_not_ws _ _ (by decide)
    rw [pv_neg f _ _ hskip, parseNatNum_round (m + 1) rest hnum]
    simp only [Option.map_some']
    rw [show (-((m + 1 : Nat) : Int)) = Int.negSucc m by
      rw [Int.negSucc_eq]
      push_cast
      ring]
  | .str s, fuel, lvl, ws, rest, hws, _, hsz, _ => by
    obtain ⟨f, rfl⟩ : ∃ f, fuel = f + 1 := ⟨fuel - 1, by simp [jsize] at hsz; omega⟩
    have hskip : skipWs (ws ++ (dumpsVal lvl (.str s) ++ rest)) =
        qMark :: ((encChars s.data ++ [qMark]) ++ rest) := by
      rw [skipWs_ws_append _ _ hws]
      simp only [dumpsVal, encodeString, List.cons_append]
      exact skipWs_not_ws _ _ (by decide)
    rw [pv_str f _ _ hskip]
    have hb : (encChars s.data ++ [qMark]) ++ rest = encChars s.data ++ (qMark :: rest) := by
      simp
    rw [hb]
    have hlen : s.data.length < (encChars s.data ++ (qMark :: rest)).length := by
      have := encChars_length s.data
      simp only [List.length_append, List.length_cons]
      omega
    rw [parseStringBody_round s.data _ rest hlen]
    rfl
  | .arr .nil, fuel, lvl, ws, rest, hws, _, hsz, _ => by
    obtain ⟨f, rfl⟩ : ∃ f, fuel = f + 1 := ⟨fuel - 1, by simp [jsize] at hsz; omega⟩
    have hskip : skipWs (ws ++ (dumpsVal lvl (.arr .nil) ++ rest)) =
        '[' :: (']' :: rest) := by
      rw [skipWs_ws_append _ _ hws]
      simp only [dumpsVal, List.cons_append]
      exact skipWs_not_ws _ _ (by decide)
    rw [pv_arr f _ _ hskip, skipWs_not_ws _ _ (by decide)]
    rfl
  | .arr (.cons x xs), fuel, lvl, ws, rest, hws, hwf, hsz, hnum => by
    obtain ⟨f, rfl⟩ : ∃ f, fuel = f + 1 := ⟨fuel - 1, by simp [jsize] at hsz; omega⟩
    have hwf2 : wfV x = true ∧ wfA xs = true := by
      simp only [wfV, wfA, Bool.and_eq_true] at hwf
      exact hwf
    obtain ⟨c0, cs0, hds, hnws, hnbr⟩ := dumpsVal_head (lvl + 1) x
    have hskip : skipWs (ws ++ (dumpsVal lvl (.arr (.cons x xs)) ++ rest)) =
        '[' :: (nlIndent (lvl + 1) ++ (dumpsVal (lvl + 1) x ++ (dumpsItems (lvl + 1) xs ++
          (nlIndent lvl ++ (']' :: rest))))) := by
      rw [skipWs_ws_append _ _ hws]
      simp only [dumpsVal, List.cons_append, List.append_assoc, List.nil_append]
      exact skipWs_not_ws _ _ (by decide)
    rw [pv_arr f _ _ hskip]
    have hsk2 : skipWs (nlIndent (lvl + 1) ++ (dumpsVal (lvl + 1) x ++
        (dumpsItems (lvl + 1) xs ++ (nlIndent lvl ++ (']' :: rest))))) =
        c0 :: (cs0 ++ (dumpsItems (lvl + 1) xs ++ (nlIndent lvl ++ (']' :: rest)))) := by
      rw [skipWs_ws_append _ _ (wsAll_nlIndent _), hds]
      simp only [List.cons_append]
      exact skipWs_not_ws _ _ hnws
    rw [hsk2]
    have hrt := rt_items x xs f lvl (lvl + 1) [] rest rfl hwf2.1 hwf2.2
      (by simp only [jsize] at hsz; omega)
    simp only [List.nil_append, hds, List.cons_append] at hrt
    split
    · rename_i r heq
      exact absurd (List.head_eq_of_cons_eq heq) hnbr
    · rw [hrt]
      rfl
  | .obj .nil, fuel, lvl, ws, rest, hws, _, hsz, _ => by
    obtain ⟨f, rfl⟩ : ∃ f, fuel = f + 1 := ⟨fuel - 1, by simp [jsize] at hsz; omega⟩
    have hskip : skipWs (ws ++ (dumpsVal lvl (.obj .nil) ++ rest)) =
        '\x7b' :: ('\x7d' :: rest) := by
      rw [skipWs_ws_append _ _ hws]
      simp only [dumpsVal, List.cons_append]
      exact skipWs_not_ws _ _ (by decide)
    rw [pv_obj f _ _ hskip, skipWs_not_ws _ _ (by decide)]
    rfl
  | .obj (.cons k v ms), fuel, lvl, ws, rest, hws, hwf, hsz, hnum => by
    obtain ⟨f, rfl⟩ : ∃ f, fuel = f + 1 := ⟨fuel - 1, by simp [jsize] at hsz; omega⟩
    have hskip : skipWs (ws ++ (dumpsVal lvl (.obj (.cons k v ms)) ++ rest)) =
        '\x7b' :: (nlIndent (lvl + 1) ++ (encodeString k ++ (':' :: ' ' ::
          (dumpsVal (lvl + 1) v ++ (dumpsMembers (lvl + 1) ms ++
            (nlIndent lvl ++ ('\x7d' :: rest))))))) := by
      rw [skipWs_ws_append _ _ hws]
      simp only [dumpsVal, List.cons_append, List.append_assoc, List.nil_append]
      exact skipWs_not_ws _ _ (by decide)
    rw [pv_obj f _ _ hskip]
    have hsk2 : skipWs (nlIndent (lvl + 1) ++ (encodeString k ++ (':' :: ' ' ::
        (dumpsVal (lvl + 1) v ++ (dumpsMembers (lvl + 1) ms ++
          (nlIndent lvl ++ ('\x7d' :: rest))))))) =
        qMark :: ((encChars k.data ++ [qMark]) ++ (':' :: ' ' ::
          (dumpsVal (lvl + 1) v ++ (dumpsMembers (lvl + 1) ms ++
            (nlIndent lvl ++ ('\x7d' :: rest)))))) := by
      rw [skipWs_ws_append _ _ (wsAll_nlIndent _)]
      simp only [encodeString, List.cons_append]
      exact skipWs_not_ws _ _ (by decide)
    rw [hsk2]
    have hrt := rt_members k v ms f lvl (lvl + 1) [] rest JsonObj.nil rfl
      (by simpa [wfV] using hwf)
      (by simp only [jsize] at hsz; omega)
      (fun key _ => rfl)
    simp only [List.nil_append, encodeString, List.cons_append] at hrt
    split
    · rename_i r heq
      exact absurd (List.head_eq_of_cons_eq heq) (by decide)
    · rw [hrt]
      rfl
termination_by v _ _ _ _ _ _ _ _ => sizeOf v

/-- Round trip for the items of a non-empty array, up to the closing `]`. -/
theorem rt_items : ∀ (x : JsonValue) (xs : JsonArr) (fuel lvl lvl2 : Nat)
    (ws rest : List Char), wsAll ws = true → wfV x = true → wfA xs = true →
    jsizeA (.cons x xs) ≤ fuel →
    parseItems fuel (ws ++ (dumpsVal lvl2 x ++ (dumpsItems lvl2 xs ++
      (nlIndent lvl ++ (']' :: rest))))) = some (.cons x xs, rest)
  | x, .nil, fuel, lvl, lvl2, ws, rest, hws, hwfx, _, hsz => by
    obtain ⟨f, rfl⟩ : ∃ f, fuel = f + 1 := ⟨fuel - 1, by simp [jsizeA] at hsz; omega⟩
    have hv := rt_val x f lvl2 ws
      (dumpsItems lvl2 .nil ++ (nlIndent lvl ++ (']' :: rest)))
      hws hwfx (by simp only [jsizeA] at hsz; omega) rfl
    rw [pi_step f _ x _ hv]
    rw [show dumpsItems lvl2 .nil ++ (nlIndent lvl ++ (']' :: rest)) =
      nlIndent lvl ++ (']' :: rest) from rfl]
    rw [skipWs_ws_append _ _ (wsAll_nlIndent _), skipWs_not_ws _ _ (by decide)]
    rfl
  | x, .cons y ys, fuel, lvl, lvl2, ws, rest, hws, hwfx, hwfxs, hsz => by
    obtain ⟨f, rfl⟩ : ∃ f, fuel = f + 1 := ⟨fuel - 1, by simp [jsizeA] at hsz; omega⟩
    have hwf2 : wfV y = true ∧ wfA ys = true := by
      simp only [wfA, Bool.and_eq_true] at hwfxs
      exact hwfxs
    have hv := rt_val x f lvl2 ws
      (dumpsItems lvl2 (.cons y ys) ++ (nlIndent lvl ++ (']' :: rest)))
      hws hwfx (by simp only [jsizeA] at hsz; omega) rfl
    rw [pi_step f _ x _ hv]
    rw [show dumpsItems lvl2 (.cons y ys) ++ (nlIndent lvl ++ (']' :: rest)) =
      ',' :: (nlIndent lvl2 ++ (dumpsVal lvl2 y ++ (dumpsItems lvl2 ys ++
        (nlIndent lvl ++ (']' :: rest))))) from by
          simp only [dumpsItems, List.cons_append, List.append_assoc]]
    rw [skipWs_not_ws _ _ (by decide)]
    simp only []
    have hrec := rt_items y ys f lvl lvl2 (nlIndent lvl2) rest (wsAll_nlIndent _)
      hwf2.1 hwf2.2 (by simp only [jsizeA] at hsz ⊢; omega)
    rw [hrec]
termination_by x xs _ _ _ _ _ _ _ _ _ => 1 + sizeOf x + sizeOf xs

/-- Round trip for the members of a non-empty object, up to the closing
brace, folding into the accumulator with Python dict semantics. -/
theorem rt_members : ∀ (k : String) (v : JsonValue) (ms : JsonObj)
    (fuel lvl lvl2 : Nat) (ws rest : List Char) (acc : JsonObj),
    wsAll ws = true → wfO (.cons k v ms) = true → jsizeO (.cons k v ms) ≤ fuel →
    (∀ key, hasKeyO (.cons k v ms) key = true → hasKeyO acc key = false) →
    parseMembers fuel acc (ws ++ (encodeString k ++ (':' :: ' ' ::
      (dumpsVal lvl2 v ++ (dumpsMembers lvl2 ms ++ (nlIndent lvl ++ ('\x7d' :: rest))))))) =
      some (appendObj acc (.cons k v ms), rest)
  | k, v, ms, fuel, lvl, lvl2, ws, rest, acc, hws, hwf, hsz, hdisj => by
    obtain ⟨f, rfl⟩ : ∃ f, fuel = f + 1 := ⟨fuel - 1, by simp [jsizeO] at hsz; omega⟩
    have hwf3 : hasKeyO ms k = false ∧ wfV v = true ∧ wfO ms = true := by
      simp only [wfO, Bool.and_eq_true, Bool.not_eq_true'] at hwf
      exact ⟨hwf.1.1, hwf.1.2, hwf.2⟩
    have hkacc : hasKeyO acc k = false := by
      refine hdisj k ?_
      simp [hasKeyO]
    have hskip : skipWs (ws ++ (encodeString k ++ (':' :: ' ' ::
        (dumpsVal lvl2 v ++ (dumpsMembers lvl2 ms ++ (nlIndent lvl ++ ('\x7d' :: rest))))))) =
        qMark :: ((encChars k.data ++ [qMark]) ++ (':' :: ' ' ::
          (dumpsVal lvl2 v ++ (dumpsMembers lvl2 ms ++ (nlIndent lvl ++ ('\x7d' :: rest)))))) := by
      rw [skipWs_ws_append _ _ hws]
      simp only [encodeString, List.cons_append]
      exact skipWs_not_ws _ _ (by decide)
    rw [parseMembers, hskip]
    simp only []
    rw [if_pos trivial]
    have hbody : (encChars k.data ++ [qMark]) ++ (':' :: ' ' ::
        (dumpsVal lvl2 v ++ (dumpsMembers lvl2 ms ++ (nlIndent lvl ++ ('\x7d' :: rest))))) =
        encChars k.data ++ (qMark :: (':' :: ' ' ::
          (dumpsVal lvl2 v ++ (dumpsMembers lvl2 ms ++ (nlIndent lvl ++ ('\x7d' :: rest)))))) := by
      simp
    rw [hbody]
    have hlen : k.data.length < (encChars k.data ++ (qMark :: (':' :: ' ' ::
        (dumpsVal lvl2 v ++ (dumpsMembers lvl2 ms ++
          (nlIndent lvl ++ ('\x7d' :: rest))))))).length := by
      have := encChars_length k.data
      simp only [List.length_append, List.length_cons]
      omega
    rw [parseStringBody_round k.data _ _ hlen]
    simp only []
    rw [skipWs_not_ws _ _ (by decide)]
    simp only []
    rw [if_pos trivial]
    have hv := rt_val v f lvl2 [' ']
      (dumpsMembers lvl2 ms ++ (nlIndent lvl ++ ('\x7d' :: rest)))
      rfl hwf3.2.1 (by simp only [jsizeO] at hsz; omega)
      (by cases ms <;> rfl)
    simp only [List.cons_append, List.nil_append] at hv
    rw [hv]
    simp only []
    cases ms with
    | nil =>
      rw [show dumpsMembers lvl2 JsonObj.nil ++ (nlIndent lvl ++ ('\x7d' :: rest)) =
        nlIndent lvl ++ ('\x7d' :: rest) from rfl]
      rw [skipWs_ws_append _ _ (wsAll_nlIndent _), skipWs_not_ws _ _ (by decide)]
      simp only []
      rw [if_neg (show ¬(('\x7d' : Char) = ',') by decide), if_pos trivial]
      rw [insertKey_not_mem acc k v hkacc]
    | cons k2 v2 ms2 =>
      rw [show dumpsMembers lvl2 (JsonObj.cons k2 v2 ms2) ++
        (nlIndent lvl ++ ('\x7d' :: rest)) =
        ',' :: (nlIndent lvl2 ++ (encodeString k2 ++ (':' :: ' ' ::
          (dumpsVal lvl2 v2 ++ (dumpsMembers lvl2 ms2 ++
            (nlIndent lvl ++ ('\x7d' :: rest))))))) from by
          simp only [dumpsMembers, List.cons_append, List.append_assoc]]
      rw [skipWs_not_ws _ _ (by decide)]
      simp only []
      rw [if_pos trivial]
      have hdisj2 : ∀ key, hasKeyO (.cons k2 v2 ms2) key = true →
          hasKeyO (insertKey acc k v) key = false := by
        intro key hkey
        rw [hasKeyO_insert acc k v key hkacc]
        have h1 : hasKeyO acc key = false := by
          refine hdisj key ?_
          rw [show hasKeyO (.cons k v (.cons k2 v2 ms2)) key =
            ((k = key : Bool) || hasKeyO (.cons k2 v2 ms2) key) from rfl, hkey,
            Bool.or_true]
        have h2 : (decide (k = key)) = false :=
          decide_eq_false (fun hkk => by
            subst hkk
            exact Bool.noConfusion (hwf3.1 ▸ hkey))
        rw [h1, h2]
        rfl
      have hrec := rt_members k2 v2 ms2 f lvl lvl2 (nlIndent lvl2) rest
        (insertKey acc k v) (wsAll_nlIndent _)
        (by
          simp only [wfO, Bool.and_eq_true, Bool.not_eq_true'] at hwf ⊢
          exact hwf.2)
        (by simp only [jsizeO] at hsz ⊢; omega)
        hdisj2
      rw [hrec]
      rw [insertKey_not_mem acc k v hkacc, appendObj_single]
termination_by _ v ms _ _ _ _ _ _ _ _ _ _ => 1 + sizeOf v + sizeOf ms
end

/-- Top-level round trip: `json.loads` inverts `json.dumps(·, indent=2)` on
every well-formed value. -/
theorem json_dumps_loads (v : JsonValue) (hwf : wfV v = true) :
    json_loads ⟨dumpsVal 0 v⟩ = some v := by
  unfold json_loads
  have h := rt_val v (dumpsVal 0 v).length 0 [] [] rfl hwf (jsize_le_dumps 0 v) rfl
  simp only [List.nil_append, List.append_nil] at h
  rw [show (String.mk (dumpsVal 0 v)).data = dumpsVal 0 v from rfl, h]
  rfl

/-! ## The Presenter: `format_repository_output` -/

/-- First match for a key in a member list (Python dict lookup; dict keys are
unique, so first match is the match). -/
def lookupKey : JsonObj → String → Option JsonValue
  | .nil, _ => none
  | .cons k v tl, key => if k = key then some v else lookupKey tl key

/-- Python `repo.get(key, default)`: the bound value when the key is present
— even when that value is `None` — and the default only when the key is
absent. -/
def dictGet (repo : JsonObj) (key : String) (dflt : JsonValue) : JsonValue :=
  (lookupKey repo key).getD dflt

/-- One character under Python `repr` of a string quoted with `q`:
backslash, the quote and the short control escapes are escaped, other
control characters (and delete) print as `\xXX`.  Unprintable characters
above ASCII are treated as printable — a simplification irrelevant to the
repository records the formatter receives. -/
def pyReprEscChar (q : Char) (c : Char) : List Char :=
  if c = '\\' then ['\\', '\\']
  else if c = q then ['\\', q]
  else if c = '\n' then ['\\', 'n']
  else if c = '\r' then ['\\', 'r']
  else if c = '\t' then ['\\', 't']
  else if c.toNat < 0x20 ∨ c.toNat = 0x7f then
    ['\\', 'x', hexDig (c.toNat / 16), hexDig (c.toNat % 16)]
  else [c]

/-- Escaped body of a `repr`-quoted string. -/
def reprEscape (q : Char) : List Char → List Char
  | [] => []
  | c :: cs => pyReprEscChar q c ++ reprEscape q cs

/-- Python `repr` of a string: single quotes, except double quotes when the
string contains a single quote but no double quote. -/
def pyReprStr (s : String) : String :=
  if sQuote ∈ s.data ∧ ¬(qMark ∈ s.data) then
    ⟨qMark :: (reprEscape qMark s.data ++ [qMark])⟩
  else
    ⟨sQuote :: (reprEscape sQuote s.data ++ [sQuote])⟩

mutual
/-- Python `repr` of a JSON-typed value (used by `str` for containers). -/
def pyRepr : JsonValue → String
  | .null => "None"
  | .bool true => "True"
  | .bool false => "False"
  | .num n => ⟨intRepr n⟩
  | .str s => pyReprStr s
  | .arr .nil => "[]"
  | .arr (.cons x xs) => "[" ++ pyRepr x ++ pyReprItems xs ++ "]"
  | .obj .nil => "\x7b\x7d"
  | .obj (.cons k v ms) =>
    "\x7b" ++ pyReprStr k ++ ": " ++ pyRepr v ++ pyReprMembers ms ++ "\x7d"

/-- Later list elements under `repr`. -/
def pyReprItems : JsonArr → String
  | .nil => ""
  | .cons x xs => ", " ++ pyRepr x ++ pyReprItems xs

/-- Later dict members under `repr`. -/
def pyReprMembers : JsonObj → String
  | .nil => ""
  | .cons k v ms => ", " ++ pyReprStr k ++ ": " ++ pyRepr v ++ pyReprMembers ms
end

/-- Python `str()` of a JSON-typed value, as interpolated by the f-strings of
`format_repository_output`: `None`/`True`/`False`, decimal integers, strings
verbatim, containers via `repr`. -/
def pyStr : JsonValue → String
  | .null => "None"
  | .bool true => "True"
  | .bool false => "False"
  | .num n => ⟨intRepr n⟩
  | .str s => s
  | .arr xs => pyRepr (.arr xs)
  | .obj ms => pyRepr (.obj ms)

/-- `", ".join(topics)` for a list of strings (main.py line 166); `none`
models the `TypeError` Python raises on non-string elements or a non-list
value. -/
def topicsJoin : JsonArr → Option String
  | .nil => some ""
  | .cons (.str s) .nil => some s
  | .cons (.str s) (.cons y tl) =>
    (topicsJoin (.cons y tl)).map (fun t => s ++ ", " ++ t)
  | _ => none

/-- Join dispatch on the `topics` value. -/
def pyJoinComma : JsonValue → Option String
  | .arr xs => topicsJoin xs
  | _ => none

/-- `format_repository_output` (main.py lines 140-180): `json` mode is
`json.dumps(repo, indent=2)`; `detailed` and `compact` are fixed templates
over `repo.get` lookups; every other mode string falls to the default
template (the final `else`, line 177).  The model is total where Python's
`detailed` branch would raise `TypeError` on ill-typed topics: the `.getD`
default is unreachable under the well-typedness hypothesis the theorems
carry. -/
def format_repository_output (repo : JsonObj) (output_format : String) : String :=
  if output_format = "json" then
    ⟨dumpsVal 0 (.obj repo)⟩
  else if output_format = "detailed" then
    "Name: " ++ pyStr (dictGet repo "name" (.str "N/A")) ++ "\n" ++
    "Description: " ++ pyStr (dictGet repo "description" (.str "No description")) ++ "\n" ++
    "URL: " ++ pyStr (dictGet repo "html_url" (.str "N/A")) ++ "\n" ++
    "Private: " ++ pyStr (dictGet repo "private" (.bool false)) ++ "\n" ++
    "Fork: " ++ pyStr (dictGet repo "fork" (.bool false)) ++ "\n" ++
    "Stars: " ++ pyStr (dictGet repo "stargazers_count" (.num 0)) ++ "\n" ++
    "Watchers: " ++ pyStr (dictGet repo "watchers_count" (.num 0)) ++ "\n" ++
    "Size: " ++ pyStr (dictGet repo "size" (.num 0)) ++ " KB\n" ++
    "Visibility: " ++ pyStr (dictGet repo "visibility" (.str "N/A")) ++ "\n" ++
    "Last Updated: " ++ pyStr (dictGet repo "updated_at" (.str "N/A")) ++ "\n" ++
    "Topics: " ++ (pyJoinComma (dictGet repo "topics" (.arr .nil))).getD "" ++ "\n" ++
    String.mk (List.replicate 50 '=')
  else if output_format = "compact" then
    "- " ++ pyStr (dictGet repo "name" (.str "N/A")) ++ " | " ++
      pyStr (dictGet repo "description" (.str "No description")) ++ " | " ++
      pyStr (dictGet repo "stargazers_count" (.num 0)) ++ " stars"
  else
    "- " ++ pyStr (dictGet repo "name" (.str "N/A")) ++ ": " ++
      pyStr (dictGet repo "description" (.str "No description"))

/-- C8: for every JSON-typed repository record (an object with unique keys,
as every Python dict has), parsing the output of `format(record, json)`
yields a value equal to the input record; and `format` is deterministic —
in this pure-function model, definitionally so, stated as the reflexive
equation on the same record and mode. -/
theorem claim_c8_json_roundtrip (repo : JsonObj) (hwf : wfO repo = true) :
    json_loads (format_repository_output repo "json") = some (.obj repo) ∧
    ∀ mode : String, format_repository_output repo mode =
      format_repository_output repo mode := by
  constructor
  · rw [show format_repository_output repo "json" = ⟨dumpsVal 0 (.obj repo)⟩ from rfl]
    refine json_dumps_loads (.obj repo) ?_
    cases repo <;> simpa [wfV] using hwf
  · intro mode
    rfl

/-- Witness for C8: a two-field record round-trips through the indented
JSON rendering. -/
theorem claim_c8_json_roundtrip_witness :
    wfO (JsonObj.cons "name" (.str "repo-1")
      (JsonObj.cons "stargazers_count" (.num 5) JsonObj.nil)) = true ∧
    json_loads (format_repository_output
      (JsonObj.cons "name" (.str "repo-1")
        (JsonObj.cons "stargazers_count" (.num 5) JsonObj.nil)) "json") =
      some (.obj (JsonObj.cons "name" (.str "repo-1")
        (JsonObj.cons "stargazers_count" (.num 5) JsonObj.nil))) :=
  ⟨rfl, (claim_c8_json_roundtrip
    (JsonObj.cons "name" (.str "repo-1")
      (JsonObj.cons "stargazers_count" (.num 5) JsonObj.nil)) rfl).1⟩

/-- C9: every mode string outside `json`, `detailed`, `compact` — including
the documented name `default` and any unrecognized string — falls to the
default template `- {name}: {description}`; `format` is total over all mode
strings. -/
theorem claim_c9_default_fallback (repo : JsonObj) (mode : String)
    (h1 : mode ≠ "json") (h2 : mode ≠ "detailed") (h3 : mode ≠ "compact") :
    format_repository_output repo mode =
      "- " ++ pyStr (dictGet repo "name" (.str "N/A")) ++ ": " ++
        pyStr (dictGet repo "description" (.str "No description")) := by
  unfold format_repository_output
  rw [if_neg h1, if_neg h2, if_neg h3]

/-- Witness for C9: the documented mode name `default` (and, by the same
theorem, any unrecognized string) renders the default template. -/
theorem claim_c9_default_fallback_witness :
    format_repository_output
      (JsonObj.cons "name" (.str "repo-1") JsonObj.nil) "default" =
      "- " ++ pyStr (dictGet (JsonObj.cons "name" (.str "repo-1") JsonObj.nil)
        "name" (.str "N/A")) ++ ": " ++
      pyStr (dictGet (JsonObj.cons "name" (.str "repo-1") JsonObj.nil)
        "description" (.str "No description")) :=
  claim_c9_default_fallback (JsonObj.cons "name" (.str "repo-1") JsonObj.nil)
    "default" (by decide) (by decide) (by decide)

/-- C10: the documented defaults apply only to absent keys.  A record whose
`description` key is present and bound to `null` renders the null value
itself (`str(None) = "None"`) in default, compact and detailed modes — never
the `No description` substitute.  The detailed conjunct assumes the `topics`
field joins cleanly, as Python raises `TypeError` otherwise. -/
theorem claim_c10_null_not_defaulted (repo : JsonObj)
    (h : lookupKey repo "description" = some .null) :
    pyStr JsonValue.null = "None" ∧
    pyStr JsonValue.null ≠ "No description" ∧
    format_repository_output repo "default" =
      "- " ++ pyStr (dictGet repo "name" (.str "N/A")) ++ ": " ++
        pyStr JsonValue.null ∧
    format_repository_output repo "compact" =
      "- " ++ pyStr (dictGet repo "name" (.str "N/A")) ++ " | " ++
        pyStr JsonValue.null ++ " | " ++
        pyStr (dictGet repo "stargazers_count" (.num 0)) ++ " stars" ∧
    ∀ t : String, pyJoinComma (dictGet repo "topics" (.arr .nil)) = some t →
      format_repository_output repo "detailed" =
        "Name: " ++ pyStr (dictGet repo "name" (.str "N/A")) ++ "\n" ++
        "Description: " ++ pyStr JsonValue.null ++ "\n" ++
        "URL: " ++ pyStr (dictGet repo "html_url" (.str "N/A")) ++ "\n" ++
        "Private: " ++ pyStr (dictGet repo "private" (.bool false)) ++ "\n" ++
        "Fork: " ++ pyStr (dictGet repo "fork" (.bool false)) ++ "\n" ++
        "Stars: " ++ pyStr (dictGet repo "stargazers_count" (.num 0)) ++ "\n" ++
        "Watchers: " ++ pyStr (dictGet repo "watchers_count" (.num 0)) ++ "\n" ++
        "Size: " ++ pyStr (dictGet repo "size" (.num 0)) ++ " KB\n" ++
        "Visibility: " ++ pyStr (dictGet repo "visibility" (.str "N/A")) ++ "\n" ++
        "Last Updated: " ++ pyStr (dictGet repo "updated_at" (.str "N/A")) ++ "\n" ++
        "Topics: " ++ t ++ "\n" ++
        String.mk (List.replicate 50 '=') := by
  have hd : dictGet repo "description" (.str "No description") = .null := by
    rw [dictGet, h]
    rfl
  refine ⟨rfl, by decide, ?_, ?_, ?_⟩
  · unfold format_repository_output
    rw [if_neg (show ("default" : String) ≠ "json" by decide),
      if_neg (show ("default" : String) ≠ "detailed" by decide),
      if_neg (show ("default" : String) ≠ "compact" by decide), hd]
  · unfold format_repository_output
    rw [if_neg (show ("compact" : String) ≠ "json" by decide),
      if_neg (show ("compact" : String) ≠ "detailed" by decide),
      if_pos rfl, hd]
  · intro t ht
    unfold format_repository_output
    rw [if_neg (show ("detailed" : String) ≠ "json" by decide), if_pos rfl, hd, ht]
    rfl

/-- Witness for C10: a record with `description` bound to `null` and no
`topics` key (the empty-list default joins to the empty string). -/
theorem claim_c10_null_not_defaulted_witness :
    pyStr JsonValue.null = "None" ∧
    pyStr JsonValue.null ≠ "No description" ∧
    format_repository_output
      (JsonObj.cons "name" (.str "repo-1")
        (JsonObj.cons "description" .null JsonObj.nil)) "default" =
      "- " ++ pyStr (dictGet (JsonObj.cons "name" (.str "repo-1")
        (JsonObj.cons "description" .null JsonObj.nil)) "name" (.str "N/A")) ++
        ": " ++ pyStr JsonValue.null := by
  have h := claim_c10_null_not_defaulted
    (JsonObj.cons "name" (.str "repo-1")
      (JsonObj.cons "description" .null JsonObj.nil)) rfl
  exact ⟨h.1, h.2.1, h.2.2.1⟩

end GitHubLister

